import Mathlib

/-!
Verification of the strategic-engine simulation core.

Shallow embedding of the repository sources:
  * src/backend/engine/model.py   — domain model (UnitType, Unit, Order, Event, State)
  * src/backend/engine/rng.py     — DRNG (PCG64-backed deterministic generator)
  * src/backend/engine/engine.py  — Engine: the per-tick state transition
  * src/backend/runtime/eventlog.py — EventLog
  * src/runtime/runner.py         — TickRunner (time compression / sleep)

Modelling conventions:
  * Python floats are embedded as rationals (ℚ); all arithmetic in the engine
    is +, -, *, /, min, max, comparisons, which ℚ models exactly.
  * math.sqrt, math.exp and the PCG64 draw stream are transcendental /
    platform primitives; they are abstracted as the parameter record MathOps.
    MathOps.rand takes the generator seed and the index of the draw, which is
    exactly the determinism contract of a seeded PCG64 stream: the i-th draw
    depends only on the seed and i.
  * Python dicts keyed by unit id are embedded as lists of units in insertion
    order (dict iteration order); dict key uniqueness appears as the
    hypothesis (units.map SimUnit.id).Nodup where a proof needs it.
  * Unit.get_type dereferences the static immutable UNIT_TYPES catalog via
    unit_type_id; the embedding flattens this indirection and stores the
    UnitType value inside the unit (the catalog is never mutated, so the two
    are equivalent for every unit whose type id is in the catalog).
-/

namespace Strat

/-- model.py WeaponType -/
inductive WeaponType where
  | direct_fire
  | indirect_fire
  | small_arms
  | anti_tank
  deriving DecidableEq, Repr

/-- model.py UnitClass -/
inductive UnitClass where
  | recon
  | infantry
  | mbt
  | artillery
  deriving DecidableEq, Repr

/-- model.py Side = Literal["BLUE", "RED"] -/
inductive Side where
  | BLUE
  | RED
  deriving DecidableEq, Repr

/-- model.py Position = Tuple[float, float] -/
abbrev Position := ℚ × ℚ

/-- model.py UnitType -/
structure UnitType where
  name : String
  unit_class : UnitClass
  max_hp : ℚ
  speed_mps : ℚ
  sensor_range_m : ℚ
  weapon_type : WeaponType
  weapon_range_m : ℚ
  damage : ℚ
  reload_time_s : ℚ
  armor : ℤ
  visibility : ℚ
  max_ammo : ℤ
  deriving DecidableEq, Repr

/-- model.py UNIT_TYPES["RECON"] -/
def RECON : UnitType :=
  { name := "Reconnaissance Vehicle", unit_class := .recon, max_hp := 50,
    speed_mps := 4, sensor_range_m := 2500, weapon_type := .small_arms,
    weapon_range_m := 400, damage := 5, reload_time_s := 2, armor := 1,
    visibility := 1/2, max_ammo := 200 }

/-- model.py UNIT_TYPES["INFANTRY"] -/
def INFANTRY : UnitType :=
  { name := "Infantry Squad", unit_class := .infantry, max_hp := 80,
    speed_mps := 3/2, sensor_range_m := 600, weapon_type := .anti_tank,
    weapon_range_m := 500, damage := 30, reload_time_s := 5, armor := 0,
    visibility := 4/5, max_ammo := 10 }

/-- model.py UNIT_TYPES["MBT"] -/
def MBT : UnitType :=
  { name := "Main Battle Tank", unit_class := .mbt, max_hp := 150,
    speed_mps := 2, sensor_range_m := 1000, weapon_type := .direct_fire,
    weapon_range_m := 3000, damage := 50, reload_time_s := 6, armor := 3,
    visibility := 3/2, max_ammo := 40 }

/-- model.py UNIT_TYPES["ARTILLERY"] -/
def ARTILLERY : UnitType :=
  { name := "Self-Propelled Howitzer", unit_class := .artillery, max_hp := 60,
    speed_mps := 3/2, sensor_range_m := 500, weapon_type := .indirect_fire,
    weapon_range_m := 15000, damage := 60, reload_time_s := 15, armor := 1,
    visibility := 6/5, max_ammo := 30 }

/-- model.py Unit.  Named SimUnit because Unit is taken by the Lean prelude.
The unit_type_id indirection into the static UNIT_TYPES catalog is flattened:
utype holds the catalog entry, and get_type returns it. -/
structure SimUnit where
  id : String
  side : Side
  utype : UnitType
  pos : Position
  hp : ℚ
  ammo : ℤ
  target_id : Option String := none
  intent_target_pos : Option Position := none
  routed : Bool := false
  last_fire_time : ℚ := 0
  spotted_by : List String := []
  deriving DecidableEq, Repr

/-- model.py Unit.get_type -/
def SimUnit.get_type (u : SimUnit) : UnitType := u.utype

/-- model.py Order kind literal -/
inductive OrderKind where
  | move
  | attack
  | defend
  deriving DecidableEq, Repr

/-- model.py Order -/
structure Order where
  kind : OrderKind
  unit_id : String
  target_pos : Option Position := none
  target_unit_id : Option String := none
  client_ts_ms : ℤ := 0
  deriving DecidableEq, Repr

/-- The payload dict of each emitted Event, one constructor per emission site
in engine.py (the dict keys are fixed per site). -/
inductive EventData where
  | orderMove (unit_id : String) (to_pos : Position)
  | orderAttack (unit_id : String) (target : String)
  | orderDefend (unit_id : String)
  | shotFired (shooter : String) (target : String) (dist_m : ℚ) (p : ℚ)
      (weapon : WeaponType)
  | damage (target : String) (dmg : ℚ) (hp : ℚ) (shooter : String)
  | destroyed (unit_id : String) (killer : String)
  | routedUnit (unit_id : String)
  deriving DecidableEq, Repr

/-- model.py Event -/
structure Event where
  kind : String
  ts_ms : ℤ
  data : EventData
  deriving DecidableEq, Repr

/-- model.py State -/
structure State where
  ts_ms : ℤ
  units : List SimUnit := []
  battle_id : String := "local"
  deriving DecidableEq, Repr

/-- Abstracted transcendental / platform primitives (see module header).
rand seed i is the i-th [0,1) draw of the PCG64 generator seeded with seed. -/
structure MathOps where
  sqrt : ℚ → ℚ
  exp : ℚ → ℚ
  rand : ℕ → ℕ → ℚ

/-- rng.py DRNG: a seeded PCG64 generator, represented by its seed and the
number of draws consumed so far. -/
structure DRNG where
  seed : ℕ
  idx : ℕ := 0
  deriving DecidableEq, Repr

/-- rng.py DRNG.bernoulli: True with probability p (generator.random() < p),
consuming one draw. -/
def DRNG.bernoulli (ops : MathOps) (r : DRNG) (p : ℚ) : Bool × DRNG :=
  (decide (ops.rand r.seed r.idx < p), { r with idx := r.idx + 1 })

/-- engine.py distance_2d (math.sqrt abstracted through MathOps). -/
def distance_2d (ops : MathOps) (pos1 pos2 : Position) : ℚ :=
  let dx := pos2.1 - pos1.1
  let dy := pos2.2 - pos1.2
  ops.sqrt (dx * dx + dy * dy)

/-- Lookup of a unit by id: Python dict get on State.units. -/
def findU (l : List SimUnit) (uid : String) : Option SimUnit :=
  l.find? (fun v => decide (v.id = uid))

/-- In-place mutation of the unit with the given id (Python mutates the dict
entry's object; ids are dict keys, hence unique). -/
def setU (l : List SimUnit) (uid : String) (f : SimUnit → SimUnit) :
    List SimUnit :=
  l.map (fun v => if v.id = uid then f v else v)

/-- engine.py Engine (fields set in __init__). -/
structure Engine where
  state : State
  rng : DRNG
  pending_orders : List Order := []
  base_acc : ℚ := 7/10
  decay_m : ℚ := 800

/-- engine.py Engine.__init__(seed, initial_state) -/
def Engine.init (seed : ℕ) (initial_state : State) : Engine :=
  { state := initial_state, rng := { seed := seed }, pending_orders := [],
    base_acc := 7/10, decay_m := 800 }

/-- engine.py Engine.apply_orders -/
def Engine.apply_orders (e : Engine) (orders : List Order) : Engine :=
  { e with pending_orders := e.pending_orders ++ orders }

/-- One iteration of the loop body of engine.py Engine._apply_orders_now.
Python truthiness: an "attack" order applies only when target_unit_id is
neither None nor the empty string. -/
def applyOrderOne (st : State) (o : Order) : State × List Event :=
  match findU st.units o.unit_id with
  | none => (st, [])
  | some u =>
    if u.routed then (st, [])
    else
      match o.kind with
      | .move =>
        match o.target_pos with
        | some tp =>
          ({ st with units := (setU st.units o.unit_id
              (fun v => { v with intent_target_pos := some tp })) },
           [{ kind := "OrderAccepted", ts_ms := st.ts_ms,
              data := .orderMove u.id tp }])
        | none => (st, [])
      | .attack =>
        match o.target_unit_id with
        | some t =>
          if t = "" then (st, [])
          else
            ({ st with units := (setU st.units o.unit_id
                (fun v => { v with target_id := some t })) },
             [{ kind := "OrderAccepted", ts_ms := st.ts_ms,
                data := .orderAttack u.id t }])
        | none => (st, [])
      | .defend =>
        ({ st with units := (setU st.units o.unit_id
            (fun v => { v with intent_target_pos := none, target_id := none })) },
         [{ kind := "OrderAccepted", ts_ms := st.ts_ms,
            data := .orderDefend u.id }])

/-- engine.py Engine._apply_orders_now: process all pending orders in
submission order. -/
def applyOrdersNow (st : State) : List Order → State × List Event
  | [] => (st, [])
  | o :: rest =>
    let p := applyOrderOne st o
    let q := applyOrdersNow p.1 rest
    (q.1, p.2 ++ q.2)

/-- The per-unit body of engine.py Engine._move. -/
def moveUnit (ops : MathOps) (dt_ms : ℤ) (u : SimUnit) : SimUnit :=
  if u.intent_target_pos = none ∨ u.routed then u
  else
    match u.intent_target_pos with
    | none => u
    | some tgt =>
      let dx := tgt.1 - u.pos.1
      let dy := tgt.2 - u.pos.2
      let dist := ops.sqrt (dx * dx + dy * dy)
      if dist < 1/10 then u
      else
        let dir_x := dx / dist
        let dir_y := dy / dist
        let max_step := u.get_type.speed_mps * ((dt_ms : ℚ) / 1000)
        let step := min max_step dist
        { u with pos := (u.pos.1 + dir_x * step, u.pos.2 + dir_y * step) }

/-- engine.py Engine._move (returns no events: movement is not logged). -/
def movePhase (ops : MathOps) (dt_ms : ℤ) (st : State) : State × List Event :=
  ({ st with units := st.units.map (moveUnit ops dt_ms) }, [])

/-- engine.py Engine._can_detect. -/
def canDetect (ops : MathOps) (detector target : SimUnit) : Bool :=
  let dist := distance_2d ops detector.pos target.pos
  let effective_range := detector.get_type.sensor_range_m * target.get_type.visibility
  decide (dist ≤ effective_range)

/-- The spotted_by set recomputed for one target by engine.py
Engine._update_spotting: ids of the (non-routed, opposing, detecting) units,
in dict iteration order. -/
def spotListFor (ops : MathOps) (allUnits : List SimUnit) (t : SimUnit) :
    List String :=
  (allUnits.filter
    (fun d => !d.routed && decide (d.side ≠ t.side) && canDetect ops d t)).map
    SimUnit.id

/-- engine.py Engine._update_spotting: clear every spotted_by set, then add
each non-routed opposing detector in range (returns no events). -/
def spotPhase (ops : MathOps) (st : State) : State × List Event :=
  ({ st with units := (st.units.map
      (fun t => { t with spotted_by := spotListFor ops st.units t })) }, [])

/-- engine.py Engine._can_fire_at. -/
def canFireAt (ops : MathOps) (current_time : ℤ) (attacker target : SimUnit) :
    Bool :=
  let a_type := attacker.get_type
  let time_since_fire := ((current_time : ℚ) - attacker.last_fire_time) / 1000
  if time_since_fire < a_type.reload_time_s then false
  else if attacker.ammo ≤ 0 then false
  else if a_type.weapon_range_m < distance_2d ops attacker.pos target.pos then
    false
  else
    match a_type.weapon_type with
    | .direct_fire => canDetect ops attacker target
    | .small_arms => canDetect ops attacker target
    | .anti_tank => canDetect ops attacker target
    | .indirect_fire => decide (0 < target.spotted_by.length)

/-- engine.py Engine._calculate_damage. -/
def calculate_damage (attacker target : SimUnit) (base_damage : ℚ) : ℚ :=
  let weapon := attacker.get_type.weapon_type
  let armor := target.get_type.armor
  if weapon = .small_arms ∧ 2 ≤ armor then base_damage * (1/10)
  else if weapon = .anti_tank then
    if 2 ≤ armor then base_damage * (3/2) else base_damage
  else if weapon = .direct_fire then
    if 3 ≤ armor then base_damage * (4/5)
    else if 2 ≤ armor then base_damage * (6/5)
    else base_damage * (3/2)
  else if weapon = .indirect_fire then
    if armor = 0 then base_damage * 2
    else if armor = 1 then base_damage * (6/5)
    else base_damage * (3/5)
  else base_damage

/-- The inner loop of engine.py Engine._find_targets: running best
(target id, distance) over candidate targets; strict improvement only, so the
first-seen unit wins distance ties. -/
def betterTarget (ops : MathOps) (ts : ℤ) (u : SimUnit)
    (best : Option (String × ℚ)) (t : SimUnit) : Option (String × ℚ) :=
  if u.side = t.side ∨ t.hp ≤ 0 then best
  else if canFireAt ops ts u t then
    let d := distance_2d ops u.pos t.pos
    match best with
    | none => some (t.id, d)
    | some b => if d < b.2 then some (t.id, d) else b
  else best

/-- engine.py Engine._find_targets: shooter → target pairs in dict order.
Python truthiness: a best target with the empty string as id would be
dropped by the `if best_target` guard. -/
def findTargets (ops : MathOps) (st : State) : List (String × String) :=
  st.units.filterMap (fun u =>
    if u.routed then none
    else
      match st.units.foldl (betterTarget ops st.ts_ms u) none with
      | some b => if b.1 = "" then none else some (u.id, b.1)
      | none => none)

/-- One iteration of the loop body of engine.py Engine._combat for the pair
(shooter id, target id). -/
def combatOne (ops : MathOps) (base_acc decay_m : ℚ) (st : State) (rng : DRNG)
    (pr : String × String) : State × DRNG × List Event :=
  match findU st.units pr.1, findU st.units pr.2 with
  | some s, some t =>
    if s.routed ∨ t.hp ≤ 0 then (st, rng, [])
    else
      let s_type := s.get_type
      let dist := distance_2d ops s.pos t.pos
      let p := max 0 (min (95/100) (base_acc * ops.exp (-dist / decay_m)))
      let shotEv : Event :=
        { kind := "ShotFired", ts_ms := st.ts_ms,
          data := .shotFired s.id t.id dist p s_type.weapon_type }
      let st1 : State :=
        { st with units := (setU st.units s.id
            (fun v => { v with ammo := v.ammo - 1,
                               last_fire_time := (st.ts_ms : ℚ) })) }
      let roll := DRNG.bernoulli ops rng p
      if roll.1 then
        let final_dmg := calculate_damage s t s_type.damage
        let newHp := t.hp - final_dmg
        let st2 : State :=
          { st1 with units := (setU st1.units t.id
              (fun v => { v with hp := v.hp - final_dmg })) }
        let dmgEv : Event :=
          { kind := "Damage", ts_ms := st.ts_ms,
            data := .damage t.id final_dmg newHp s.id }
        if newHp ≤ 0 then
          (st2, roll.2,
           [shotEv, dmgEv,
            { kind := "Destroyed", ts_ms := st.ts_ms,
              data := .destroyed t.id s.id }])
        else (st2, roll.2, [shotEv, dmgEv])
      else (st1, roll.2, [shotEv])
  | _, _ => (st, rng, [])

/-- engine.py Engine._combat: resolve the selected pairs in order, threading
state and generator. -/
def combatRun (ops : MathOps) (base_acc decay_m : ℚ) :
    State → DRNG → List (String × String) → State × DRNG × List Event
  | st, rng, [] => (st, rng, [])
  | st, rng, pr :: rest =>
    let p := combatOne ops base_acc decay_m st rng pr
    let q := combatRun ops base_acc decay_m p.1 p.2.1 rest
    (q.1, q.2.1, p.2.2 ++ q.2.2)

/-- The per-unit body of engine.py Engine._morale: an already-routed unit is
skipped (no draw); a unit below 30% hp draws Bernoulli(0.5) and routs on
success. -/
def moraleUnit (ops : MathOps) (ts : ℤ) (u : SimUnit) (rng : DRNG) :
    SimUnit × DRNG × List Event :=
  if u.routed then (u, rng, [])
  else
    let hp_pct := max 0 u.hp / u.get_type.max_hp
    if hp_pct < 3/10 then
      let roll := DRNG.bernoulli ops rng (1/2)
      if roll.1 then
        ({ u with routed := true }, roll.2,
         [{ kind := "Routed", ts_ms := ts, data := .routedUnit u.id }])
      else (u, roll.2, [])
    else (u, rng, [])

/-- engine.py Engine._morale over the unit list in dict order. -/
def moraleRun (ops : MathOps) (ts : ℤ) :
    List SimUnit → DRNG → List SimUnit × DRNG × List Event
  | [], rng => ([], rng, [])
  | u :: rest, rng =>
    let p := moraleUnit ops ts u rng
    let q := moraleRun ops ts rest p.2.1
    (p.1 :: q.1, q.2.1, p.2.2 ++ q.2.2)

/-- engine.py Engine._morale as a phase on State. -/
def moralePhase (ops : MathOps) (st : State) (rng : DRNG) :
    State × DRNG × List Event :=
  let r := moraleRun ops st.ts_ms st.units rng
  ({ st with units := r.1 }, r.2.1, r.2.2)

/-- engine.py Engine.step: the six phases in fixed order, then advance the
timestamp; pending orders are cleared by _apply_orders_now. -/
def Engine.step (ops : MathOps) (e : Engine) (dt_ms : ℤ) :
    List Event × Engine :=
  let p1 := applyOrdersNow e.state e.pending_orders
  let p2 := movePhase ops dt_ms p1.1
  let p3 := spotPhase ops p2.1
  let targets := findTargets ops p3.1
  let p4 := combatRun ops e.base_acc e.decay_m p3.1 e.rng targets
  let p5 := moralePhase ops p4.1 p4.2.1
  let st6 : State := { p5.1 with ts_ms := p5.1.ts_ms + dt_ms }
  (p1.2 ++ p2.2 ++ p3.2 ++ p4.2.2 ++ p5.2.2,
   { e with state := st6, rng := p5.2.1, pending_orders := [] })

/-- engine.py Engine.snapshot. -/
def Engine.snapshot (e : Engine) : State := e.state

/-- A driving script: per tick, the batch handed to apply_orders and the
dt_ms passed to step; returns the event list of every step and the final
engine. -/
def runScript (ops : MathOps) :
    Engine → List (List Order × ℤ) → List (List Event) × Engine
  | e, [] => ([], e)
  | e, (os, dt) :: rest =>
    let p := (e.apply_orders os).step ops dt
    let q := runScript ops p.2 rest
    (p.1 :: q.1, q.2)

/-! ### Tick scheduler (src/runtime/runner.py)

Only the timing state bears on the claims: the engine handle, the asyncio
queue, the event log, the task and the lock are runtime plumbing. -/

/-- runner.py TickRunner timing fields. sleep_s is the duration the loop
hands to asyncio.sleep between ticks. -/
structure TickRunner where
  tick_ms : ℤ
  time_compression : ℚ
  sleep_s : ℚ
  deriving DecidableEq, Repr

/-- runner.py TickRunner.__init__(engine, tick_ms=500, time_compression=30.0):
sleep_s = (tick_ms / 1000.0) / max(1.0, time_compression). -/
def TickRunner.mkRunner (tick_ms : ℤ) (time_compression : ℚ) : TickRunner :=
  { tick_ms := tick_ms, time_compression := time_compression,
    sleep_s := ((tick_ms : ℚ) / 1000) / max 1 time_compression }

/-- runner.py TickRunner.set_time_compression: store the clamp of the factor
to [0.1, 1000.0], and recompute sleep_s as
(tick_ms / 1000.0) / max(1.0, stored compression). -/
def TickRunner.set_time_compression (r : TickRunner) (time_compression : ℚ) :
    TickRunner :=
  let tc := max (1/10) (min 1000 time_compression)
  { r with time_compression := tc,
           sleep_s := ((r.tick_ms : ℚ) / 1000) / max 1 tc }

/-! ### Event log (src/backend/runtime/eventlog.py) -/

/-- eventlog.py EventLog. -/
structure EventLog where
  log : List Event := []
  deriving DecidableEq, Repr

/-- eventlog.py EventLog.append_many: returns the new log together with
(start, end) = (len before, len after - 1). -/
def EventLog.append_many (l : EventLog) (evts : List Event) :
    EventLog × ℤ × ℤ :=
  let start : ℤ := l.log.length
  let log2 := l.log ++ evts
  ({ log := log2 }, start, (log2.length : ℤ) - 1)

/-- Python slice index normalization for xs[a:b] with step 1: a negative
index counts from the end, and both ends clamp into [0, len]. -/
def pySliceIdx (len : ℕ) (i : ℤ) : ℕ :=
  if i < 0 then ((len : ℤ) + i).toNat else min i.toNat len

/-- Python xs[a:b] for integer a, b (step 1). -/
def pySlice {α : Type} (xs : List α) (a b : ℤ) : List α :=
  (xs.take (pySliceIdx xs.length b)).drop (pySliceIdx xs.length a)

/-- eventlog.py EventLog.since: offset = max(0, offset);
chunk = log[offset : offset + limit]; return (chunk, offset + len(chunk)). -/
def EventLog.since (l : EventLog) (offset : ℤ) (limit : ℤ := 1000) :
    List Event × ℤ :=
  let o := max 0 offset
  let chunk := pySlice l.log o (o + limit)
  (chunk, o + (chunk.length : ℤ))

/-! ### Shared concrete inputs for witnesses -/

/-- Concrete instantiation of the abstract primitives, used to evaluate the
engine at witness inputs (the engine theorems hold for every MathOps). -/
def ops0 : MathOps :=
  { sqrt := fun _ => 0, exp := fun _ => 1, rand := fun _ _ => 0 }

/-- A destroyed (hp = 0) but not routed BLUE recon unit. -/
def uA : SimUnit :=
  { id := "A", side := .BLUE, utype := RECON, pos := (0, 0), hp := 0,
    ammo := 10 }

/-- A healthy RED recon unit at the same spot. -/
def uB : SimUnit :=
  { id := "B", side := .RED, utype := RECON, pos := (0, 0), hp := 50,
    ammo := 10 }

/-- A routed BLUE unit. -/
def uC : SimUnit :=
  { id := "C", side := .BLUE, utype := RECON, pos := (5, 7), hp := 40,
    ammo := 3, routed := true }

/-- Two-unit sample state (reload times long elapsed at ts 100000). -/
def st0 : State := { ts_ms := 100000, units := [uA, uB] }

/-- Sample state that also holds a routed unit. -/
def st1 : State := { ts_ms := 100000, units := [uA, uB, uC] }

/-- Sample events for the event-log claims. -/
def evSample1 : Event :=
  { kind := "Routed", ts_ms := 0, data := .routedUnit "A" }

def evSample2 : Event :=
  { kind := "Destroyed", ts_ms := 5, data := .destroyed "B" "A" }

/-! ### C3 — weapon-vs-armor damage table -/

/-- Modelled from the spec's words (§4.2a table), for comparison with
engine.py _calculate_damage: the claimed damage multiplier for a weapon
against an armor level (0 = none, 1 = light, 2 = medium, 3 = heavy). -/
def spec_damage_mult (weapon : WeaponType) (armor : ℤ) : ℚ :=
  match weapon with
  | .small_arms => if 2 ≤ armor then 1/10 else 1
  | .anti_tank => if 2 ≤ armor then 3/2 else 1
  | .direct_fire =>
    if 3 ≤ armor then 4/5 else if armor = 2 then 6/5 else 3/2
  | .indirect_fire =>
    if armor = 0 then 2 else if armor = 1 then 6/5 else 3/5

/-- C3: on a successful hit the damage applied equals the shooter's
unit-type base damage times the §4.2a weapon-vs-armor multiplier
(small-arms ×1 at armor 0–1, ×0.1 at armor ≥ 2; anti-tank ×1 at 0–1,
×1.5 at ≥ 2; direct-fire ×1.5 below armor 2, ×1.2 at 2, ×0.8 at ≥ 3;
indirect-fire ×2.0 at 0, ×1.2 at 1, ×0.6 at ≥ 2). -/
theorem damage_matches_spec_table (attacker target : SimUnit) (base : ℚ)
    (h : 0 ≤ target.get_type.armor) :
    calculate_damage attacker target base =
      base * spec_damage_mult attacker.get_type.weapon_type
        target.get_type.armor := by
  unfold calculate_damage spec_damage_mult SimUnit.get_type at *
  cases hw : attacker.utype.weapon_type <;>
    simp only [hw] <;> split_ifs <;> simp_all <;>
    first
      | ring1
      | omega

/-- Witness for C3 at a concrete input: recon small-arms against MBT
(armor 3) multiplies base damage 5 by 0.1. -/
theorem damage_matches_spec_table_witness :
    calculate_damage uA { uB with utype := MBT } 5 =
      5 * spec_damage_mult uA.get_type.weapon_type
        ({ uB with utype := MBT } : SimUnit).get_type.armor :=
  damage_matches_spec_table uA { uB with utype := MBT } 5 (by decide)

/-! ### C2 — time compression and tick sleep duration -/

/-- C2 counterexample: set_time_compression 0.1 stores the clamped
compression 0.1, but the sleep duration becomes tick_seconds / max(1.0, 0.1)
= tick_seconds, not tick_seconds / 0.1 as the claim states (0.5 ≠ 5 for
tick_ms = 500). -/
theorem set_time_compression_counterexample :
    ((TickRunner.mkRunner 500 30).set_time_compression (1/10)).time_compression
        = 1/10 ∧
    ((TickRunner.mkRunner 500 30).set_time_compression (1/10)).sleep_s = 1/2 ∧
    ((TickRunner.mkRunner 500 30).set_time_compression (1/10)).sleep_s ≠
      ((500 : ℚ) / 1000) /
        ((TickRunner.mkRunner 500 30).set_time_compression (1/10)).time_compression := by
  refine ⟨by norm_num [TickRunner.set_time_compression, TickRunner.mkRunner],
          by norm_num [TickRunner.set_time_compression, TickRunner.mkRunner],
          by norm_num [TickRunner.set_time_compression, TickRunner.mkRunner]⟩

/-- C2 amended: set_time_compression stores the factor clamped to
[0.1, 1000.0], and the suspend duration between subsequent ticks equals
tick_seconds divided by max(1.0, clamped compression); in particular for
every factor between 1.0 and 1000.0 it equals tick_seconds divided by the
clamped (= given) factor, while factor 0.1 yields tick_seconds / 1.0. -/
theorem set_time_compression_clamps_and_sets_sleep (r : TickRunner) (f : ℚ) :
    (r.set_time_compression f).time_compression = max (1/10) (min 1000 f) ∧
    (r.set_time_compression f).sleep_s =
      ((r.tick_ms : ℚ) / 1000) / max 1 (max (1/10) (min 1000 f)) ∧
    (1 ≤ f → f ≤ 1000 →
      (r.set_time_compression f).sleep_s = ((r.tick_ms : ℚ) / 1000) / f) := by
  refine ⟨rfl, rfl, fun h1 h2 => ?_⟩
  show ((r.tick_ms : ℚ) / 1000) / max 1 (max (1/10) (min 1000 f)) = _
  rw [min_eq_right h2, max_eq_right (by linarith : (1 : ℚ)/10 ≤ f),
      max_eq_right h1]

/-- Witness for C2 amended at factor 30 on the default runner. -/
theorem set_time_compression_clamps_witness :
    ((TickRunner.mkRunner 500 30).set_time_compression 30).time_compression
        = max (1/10) (min 1000 30) ∧
    ((TickRunner.mkRunner 500 30).set_time_compression 30).sleep_s =
      ((500 : ℚ) / 1000) / max 1 (max (1/10) (min 1000 30)) ∧
    ((TickRunner.mkRunner 500 30).set_time_compression 30).sleep_s =
      ((500 : ℚ) / 1000) / 30 := by
  obtain ⟨h1, h2, h3⟩ :=
    set_time_compression_clamps_and_sets_sleep (TickRunner.mkRunner 500 30) 30
  exact ⟨h1, h2, h3 (by norm_num) (by norm_num)⟩

/-! ### C8 — event log append_many / since -/

/-- Python slicing of xs[a:b] for 0 ≤ a ≤ b is drop a then take (b - a). -/
theorem pySlice_nonneg {α : Type} (xs : List α) (a b : ℤ) (ha : 0 ≤ a)
    (hab : a ≤ b) :
    pySlice xs a b = (xs.drop a.toNat).take (b.toNat - a.toNat) := by
  unfold pySlice pySliceIdx
  rw [if_neg (by omega), if_neg (by omega)]
  have htake : xs.take (min b.toNat xs.length) = xs.take b.toNat := by
    rw [List.take_eq_take]
    omega
  rw [htake]
  by_cases hA : a.toNat ≤ xs.length
  · rw [min_eq_left hA, List.drop_take]
  · have hlen : min a.toNat xs.length = xs.length := by omega
    rw [hlen]
    rw [List.drop_of_length_le (by rw [List.length_take]; omega)]
    rw [List.drop_of_length_le (le_of_not_le hA)]
    exact List.take_nil.symm

/-- C8 counterexample: with a two-event log, since(0, -1) returns one event
(Python's negative slice end counts from the end of the list), so the result
is not "at most limit events" for the negative limit -1. -/
theorem eventlog_since_negative_limit_counterexample :
    ((EventLog.mk [evSample1, evSample2]).since 0 (-1)).1 = [evSample1] ∧
    ¬ ((((EventLog.mk [evSample1, evSample2]).since 0 (-1)).1.length : ℤ)
        ≤ -1) := by
  constructor
  · rfl
  · decide

/-- C8 amended: for every offset and every NONNEGATIVE limit, since returns
the contiguous slice of the log starting at index max(0, offset) of at most
limit events, plus the resume offset max(0, offset) + (number returned); and
append_many appends the events in order and returns the covered offset range
(length before, length after - 1). -/
theorem eventlog_since_and_append (l : EventLog) (offset limit : ℤ)
    (hlim : 0 ≤ limit) :
    (l.since offset limit).1 =
      (l.log.drop (max 0 offset).toNat).take limit.toNat ∧
    (l.since offset limit).2 =
      max 0 offset + ((l.since offset limit).1.length : ℤ) ∧
    ∀ evts : List Event,
      (l.append_many evts).1.log = l.log ++ evts ∧
      (l.append_many evts).2.1 = (l.log.length : ℤ) ∧
      (l.append_many evts).2.2 = (l.log.length : ℤ) + evts.length - 1 := by
  refine ⟨?_, rfl, fun evts => ⟨rfl, rfl, by simp [EventLog.append_many]⟩⟩
  show pySlice l.log (max 0 offset) (max 0 offset + limit) = _
  rw [pySlice_nonneg l.log (max 0 offset) (max 0 offset + limit)
      (le_max_left 0 offset) (by omega)]
  congr 1
  omega

/-- Witness for C8 amended: a two-event log queried with since(-5, 1). -/
theorem eventlog_since_and_append_witness :
    ((EventLog.mk [evSample1, evSample2]).since (-5) 1).1 =
      (([evSample1, evSample2].drop (max 0 (-5 : ℤ)).toNat).take
        (1 : ℤ).toNat) ∧
    ((EventLog.mk [evSample1, evSample2]).since (-5) 1).2 =
      max 0 (-5) +
        ((((EventLog.mk [evSample1, evSample2]).since (-5) 1).1.length : ℤ)) ∧
    ∀ evts : List Event,
      ((EventLog.mk [evSample1, evSample2]).append_many evts).1.log
          = [evSample1, evSample2] ++ evts ∧
      ((EventLog.mk [evSample1, evSample2]).append_many evts).2.1
          = (([evSample1, evSample2] : List Event).length : ℤ) ∧
      ((EventLog.mk [evSample1, evSample2]).append_many evts).2.2
          = (([evSample1, evSample2] : List Event).length : ℤ)
            + evts.length - 1 :=
  eventlog_since_and_append (EventLog.mk [evSample1, evSample2]) (-5) 1
    (by norm_num)

/-! ### C1 — determinism of the engine over seeds and order scripts -/

/-- C1: two engine instances constructed with the same seed over equal
initial states, fed identical order batches via apply_orders before
identical step(dt_ms) calls, return identical event sequences every step
and end in identical states.  All engine randomness flows through the
seed-indexed draw stream, so the run is a function of seed, initial state
and script alone. -/
theorem engine_determinism (ops : MathOps) (seed : ℕ) (st_a st_b : State)
    (script : List (List Order × ℤ)) (h : st_a = st_b) :
    runScript ops (Engine.init seed st_a) script =
      runScript ops (Engine.init seed st_b) script := by
  rw [h]

/-- Witness for C1: seed 42, the two-unit sample state, one empty batch and
one 500 ms step. -/
theorem engine_determinism_witness :
    runScript ops0 (Engine.init 42 st0) [([], 500)] =
      runScript ops0 (Engine.init 42 st0) [([], 500)] :=
  engine_determinism ops0 42 st0 st0 [([], 500)] rfl

/-! ### Step decomposition into phases, and per-phase event kinds -/

/-- Phase 1 of a step: order application on the engine's pending buffer. -/
def stepOrderPart (e : Engine) : State × List Event :=
  applyOrdersNow e.state e.pending_orders

/-- The state after phases 1–3 (orders, movement, spotting). -/
def stepSpottedState (ops : MathOps) (e : Engine) (dt_ms : ℤ) : State :=
  (spotPhase ops (movePhase ops dt_ms (stepOrderPart e).1).1).1

/-- Phase 5 of a step: combat resolution on the spotted state. -/
def stepCombatPart (ops : MathOps) (e : Engine) (dt_ms : ℤ) :
    State × DRNG × List Event :=
  combatRun ops e.base_acc e.decay_m (stepSpottedState ops e dt_ms) e.rng
    (findTargets ops (stepSpottedState ops e dt_ms))

/-- Phase 6 of a step: morale on the post-combat state. -/
def stepMoralePart (ops : MathOps) (e : Engine) (dt_ms : ℤ) :
    State × DRNG × List Event :=
  moralePhase ops (stepCombatPart ops e dt_ms).1 (stepCombatPart ops e dt_ms).2.1

/-- A step's event list is the concatenation of the order, combat and morale
phase events in phase order (movement and spotting emit nothing). -/
theorem step_events_decomp (ops : MathOps) (e : Engine) (dt_ms : ℤ) :
    (Engine.step ops e dt_ms).1 =
      (stepOrderPart e).2 ++ (stepCombatPart ops e dt_ms).2.2 ++
        (stepMoralePart ops e dt_ms).2.2 := by
  simp [Engine.step, movePhase, spotPhase, stepOrderPart, stepSpottedState,
    stepCombatPart, stepMoralePart]

/-- A step's final engine state and generator come from the morale phase,
with the timestamp advanced by dt_ms and the pending buffer cleared. -/
theorem step_state_decomp (ops : MathOps) (e : Engine) (dt_ms : ℤ) :
    (Engine.step ops e dt_ms).2 =
      { e with
          state := { (stepMoralePart ops e dt_ms).1 with
            ts_ms := (stepMoralePart ops e dt_ms).1.ts_ms + dt_ms },
          rng := (stepMoralePart ops e dt_ms).2.1,
          pending_orders := [] } := by
  simp [Engine.step, movePhase, spotPhase, stepOrderPart, stepSpottedState,
    stepCombatPart, stepMoralePart]

/-- Every event emitted by one order application is an OrderAccepted. -/
theorem applyOrderOne_kind (st : State) (o : Order) :
    ∀ ev ∈ (applyOrderOne st o).2, ev.kind = "OrderAccepted" := by
  intro ev hev
  unfold applyOrderOne at hev
  repeat' split at hev
  all_goals simp_all

/-- Every event emitted by the order phase is an OrderAccepted. -/
theorem applyOrdersNow_kinds :
    ∀ (os : List Order) (st : State), ∀ ev ∈ (applyOrdersNow st os).2,
      ev.kind = "OrderAccepted" := by
  intro os
  induction os with
  | nil => intro st ev hev; simp [applyOrdersNow] at hev
  | cons o rest ih =>
    intro st ev hev
    simp only [applyOrdersNow, List.mem_append] at hev
    rcases hev with h | h
    · exact applyOrderOne_kind st o ev h
    · exact ih _ ev h

/-- Every event emitted by one combat resolution is a ShotFired, Damage or
Destroyed. -/
theorem combatOne_kinds (ops : MathOps) (ba dm : ℚ) (st : State) (rng : DRNG)
    (pr : String × String) :
    ∀ ev ∈ (combatOne ops ba dm st rng pr).2.2,
      ev.kind = "ShotFired" ∨ ev.kind = "Damage" ∨ ev.kind = "Destroyed" := by
  intro ev hev
  unfold combatOne at hev
  dsimp only [] at hev
  repeat' split at hev
  all_goals aesop

/-- Every event emitted by the combat phase is a ShotFired, Damage or
Destroyed. -/
theorem combatRun_kinds (ops : MathOps) (ba dm : ℚ) :
    ∀ (prs : List (String × String)) (st : State) (rng : DRNG),
      ∀ ev ∈ (combatRun ops ba dm st rng prs).2.2,
        ev.kind = "ShotFired" ∨ ev.kind = "Damage" ∨ ev.kind = "Destroyed" := by
  intro prs
  induction prs with
  | nil => intro st rng ev hev; simp [combatRun] at hev
  | cons pr rest ih =>
    intro st rng ev hev
    simp only [combatRun, List.mem_append] at hev
    rcases hev with h | h
    · exact combatOne_kinds ops ba dm st rng pr ev h
    · exact ih _ _ ev h

/-- Every event emitted for one unit by the morale phase is a Routed. -/
theorem moraleUnit_kind (ops : MathOps) (ts : ℤ) (u : SimUnit) (rng : DRNG) :
    ∀ ev ∈ (moraleUnit ops ts u rng).2.2, ev.kind = "Routed" := by
  intro ev hev
  unfold moraleUnit at hev
  dsimp only [] at hev
  repeat' split at hev
  all_goals simp_all

/-- Every event emitted by the morale phase is a Routed. -/
theorem moraleRun_kinds (ops : MathOps) (ts : ℤ) :
    ∀ (us : List SimUnit) (rng : DRNG),
      ∀ ev ∈ (moraleRun ops ts us rng).2.2, ev.kind = "Routed" := by
  intro us
  induction us with
  | nil => intro rng ev hev; simp [moraleRun] at hev
  | cons u rest ih =>
    intro rng ev hev
    simp only [moraleRun, List.mem_append] at hev
    rcases hev with h | h
    · exact moraleUnit_kind ops ts u rng ev h
    · exact ih _ ev h

/-! ### C6 — event ordering within one step -/

/-- C6: the events of one step(dt_ms) are the concatenation of the phases'
events in phase order: first the OrderAccepted events of phase 1, then the
ShotFired / Damage / Destroyed events of phase 5, then the Routed events of
phase 6 — so every OrderAccepted precedes every combat event, and every
combat event precedes every Routed event. -/
theorem step_event_ordering (ops : MathOps) (e : Engine) (dt_ms : ℤ) :
    ∃ osv csv msv : List Event,
      (Engine.step ops e dt_ms).1 = osv ++ csv ++ msv ∧
      (∀ ev ∈ osv, ev.kind = "OrderAccepted") ∧
      (∀ ev ∈ csv,
        ev.kind = "ShotFired" ∨ ev.kind = "Damage" ∨ ev.kind = "Destroyed") ∧
      (∀ ev ∈ msv, ev.kind = "Routed") :=
  ⟨(stepOrderPart e).2, (stepCombatPart ops e dt_ms).2.2,
   (stepMoralePart ops e dt_ms).2.2,
   step_events_decomp ops e dt_ms,
   fun ev h => applyOrdersNow_kinds e.pending_orders e.state ev h,
   fun ev h => combatRun_kinds ops e.base_acc e.decay_m _ _ _ ev h,
   fun ev h => moraleRun_kinds ops _ _ _ ev h⟩

/-! ### C7 — movement geometry -/

/-- Squared Euclidean distance (exact in ℚ, unlike its square root). -/
def dist2sq (p q : Position) : ℚ :=
  (q.1 - p.1) * (q.1 - p.1) + (q.2 - p.2) * (q.2 - p.2)

/-- C7: in the movement phase a non-routed unit whose intent target is at
(code-computed) distance d: if d < 0.1 it does not change position; otherwise
it moves along the unit direction vector toward the target by exactly
step = min(speed_mps * dt_ms/1000, d) — its new position is
pos + (step/d)·(tgt - pos), the squared distance moved is step² and the
squared distance left to the target is (d - step)², provided the abstracted
sqrt is faithful at this input (d·d equals the squared distance).  The
movement phase maps this update over all units and emits no event. -/
theorem move_step_exact (ops : MathOps) (dt_ms : ℤ) (u : SimUnit)
    (tgt : Position) (d : ℚ)
    (hint : u.intent_target_pos = some tgt) (hrt : u.routed = false)
    (hd : d = ops.sqrt ((tgt.1 - u.pos.1) * (tgt.1 - u.pos.1) +
      (tgt.2 - u.pos.2) * (tgt.2 - u.pos.2)))
    (hsq : d * d = (tgt.1 - u.pos.1) * (tgt.1 - u.pos.1) +
      (tgt.2 - u.pos.2) * (tgt.2 - u.pos.2)) :
    (d < 1/10 → moveUnit ops dt_ms u = u) ∧
    (¬ d < 1/10 →
      (moveUnit ops dt_ms u).pos.1 = u.pos.1 + (tgt.1 - u.pos.1) / d *
        min (u.get_type.speed_mps * ((dt_ms : ℚ) / 1000)) d ∧
      (moveUnit ops dt_ms u).pos.2 = u.pos.2 + (tgt.2 - u.pos.2) / d *
        min (u.get_type.speed_mps * ((dt_ms : ℚ) / 1000)) d ∧
      dist2sq u.pos (moveUnit ops dt_ms u).pos =
        min (u.get_type.speed_mps * ((dt_ms : ℚ) / 1000)) d *
          min (u.get_type.speed_mps * ((dt_ms : ℚ) / 1000)) d ∧
      dist2sq (moveUnit ops dt_ms u).pos tgt =
        (d - min (u.get_type.speed_mps * ((dt_ms : ℚ) / 1000)) d) *
          (d - min (u.get_type.speed_mps * ((dt_ms : ℚ) / 1000)) d)) ∧
    (∀ st : State,
      (movePhase ops dt_ms st).1.units = st.units.map (moveUnit ops dt_ms) ∧
      (movePhase ops dt_ms st).2 = []) := by
  have hnn : ¬ (u.intent_target_pos = none ∨ u.routed = true) := by
    simp [hint, hrt]
  refine ⟨fun hlt => ?_, fun hge => ?_, fun st => ⟨rfl, rfl⟩⟩
  · unfold moveUnit
    rw [if_neg (by simpa using hnn), hint]
    dsimp only []
    rw [← hd, if_pos hlt]
  · have hd0 : d ≠ 0 := by
      intro h0
      rw [h0] at hge
      exact hge (by norm_num)
    have hmv : moveUnit ops dt_ms u =
        { u with pos :=
            (u.pos.1 + (tgt.1 - u.pos.1) / d *
              min (u.get_type.speed_mps * ((dt_ms : ℚ) / 1000)) d,
             u.pos.2 + (tgt.2 - u.pos.2) / d *
              min (u.get_type.speed_mps * ((dt_ms : ℚ) / 1000)) d) } := by
      unfold moveUnit
      rw [if_neg (by simpa using hnn), hint]
      dsimp only []
      rw [← hd, if_neg hge]
    rw [hmv]
    refine ⟨rfl, rfl, ?_, ?_⟩
    · have expand : dist2sq u.pos
          (u.pos.1 + (tgt.1 - u.pos.1) / d *
            min (u.get_type.speed_mps * ((dt_ms : ℚ) / 1000)) d,
           u.pos.2 + (tgt.2 - u.pos.2) / d *
            min (u.get_type.speed_mps * ((dt_ms : ℚ) / 1000)) d) =
          ((tgt.1 - u.pos.1) * (tgt.1 - u.pos.1) +
            (tgt.2 - u.pos.2) * (tgt.2 - u.pos.2)) *
            (min (u.get_type.speed_mps * ((dt_ms : ℚ) / 1000)) d / d) *
            (min (u.get_type.speed_mps * ((dt_ms : ℚ) / 1000)) d / d) := by
        unfold dist2sq
        ring
      rw [expand, ← hsq]
      field_simp
      ring
    · have expand : dist2sq
          (u.pos.1 + (tgt.1 - u.pos.1) / d *
            min (u.get_type.speed_mps * ((dt_ms : ℚ) / 1000)) d,
           u.pos.2 + (tgt.2 - u.pos.2) / d *
            min (u.get_type.speed_mps * ((dt_ms : ℚ) / 1000)) d) tgt =
          ((tgt.1 - u.pos.1) * (tgt.1 - u.pos.1) +
            (tgt.2 - u.pos.2) * (tgt.2 - u.pos.2)) *
            ((d - min (u.get_type.speed_mps * ((dt_ms : ℚ) / 1000)) d) / d) *
            ((d - min (u.get_type.speed_mps * ((dt_ms : ℚ) / 1000)) d) / d) := by
        unfold dist2sq
        field_simp
        ring
      rw [expand, ← hsq]
      field_simp
      ring

/-- Concrete MathOps whose sqrt is faithful at 25, for the movement witness. -/
def ops1 : MathOps :=
  { sqrt := fun q => if q = 25 then 5 else 0, exp := fun _ => 1,
    rand := fun _ _ => 0 }

/-- A moving unit: recon at the origin heading for (3, 4). -/
def uMov : SimUnit :=
  { id := "M", side := .BLUE, utype := RECON, pos := (0, 0), hp := 50,
    ammo := 200, intent_target_pos := some (3, 4) }

/-- Witness for C7: recon at (0,0) with target (3,4) (distance 5), speed 4,
dt 500 ms, so it steps by min(2, 5) = 2 along the direction (3/5, 4/5). -/
theorem move_step_exact_witness :
    ((5 : ℚ) < 1/10 → moveUnit ops1 500 uMov = uMov) ∧
    (¬ (5 : ℚ) < 1/10 →
      (moveUnit ops1 500 uMov).pos.1 = uMov.pos.1 +
        (((3 : ℚ), (4 : ℚ)).1 - uMov.pos.1) / 5 *
        min (uMov.get_type.speed_mps * ((500 : ℚ) / 1000)) 5 ∧
      (moveUnit ops1 500 uMov).pos.2 = uMov.pos.2 +
        (((3 : ℚ), (4 : ℚ)).2 - uMov.pos.2) / 5 *
        min (uMov.get_type.speed_mps * ((500 : ℚ) / 1000)) 5 ∧
      dist2sq uMov.pos (moveUnit ops1 500 uMov).pos =
        min (uMov.get_type.speed_mps * ((500 : ℚ) / 1000)) 5 *
          min (uMov.get_type.speed_mps * ((500 : ℚ) / 1000)) 5 ∧
      dist2sq (moveUnit ops1 500 uMov).pos ((3 : ℚ), (4 : ℚ)) =
        (5 - min (uMov.get_type.speed_mps * ((500 : ℚ) / 1000)) 5) *
          (5 - min (uMov.get_type.speed_mps * ((500 : ℚ) / 1000)) 5)) ∧
    (∀ st : State,
      (movePhase ops1 500 st).1.units = st.units.map (moveUnit ops1 500) ∧
      (movePhase ops1 500 st).2 = []) :=
  move_step_exact ops1 500 uMov (3, 4) 5 rfl rfl
    (by norm_num [ops1, uMov]) (by norm_num [uMov])

/-! ### Unit lookup / update infrastructure -/

/-- The shooter id carried by an event payload, when any. -/
def EventData.shooterOf : EventData → Option String
  | .shotFired s _ _ _ _ => some s
  | _ => none

/-- The unit id an OrderAccepted payload concerns, when any. -/
def EventData.orderUnitOf : EventData → Option String
  | .orderMove u _ => some u
  | .orderAttack u _ => some u
  | .orderDefend u => some u
  | _ => none

theorem findU_mem {l : List SimUnit} {uid : String} {u : SimUnit}
    (h : findU l uid = some u) : u ∈ l ∧ u.id = uid := by
  unfold findU at h
  have hm := List.mem_of_find?_eq_some h
  have hp := List.find?_some h
  exact ⟨hm, by simpa using hp⟩

theorem findU_map_of_id (f : SimUnit → SimUnit)
    (hf : ∀ v, (f v).id = v.id) (l : List SimUnit) (uid : String) :
    findU (l.map f) uid = (findU l uid).map f := by
  induction l with
  | nil => rfl
  | cons v rest ih =>
    unfold findU at *
    by_cases hv : v.id = uid
    · rw [List.map_cons, List.find?_cons_of_pos _ (by simp [hf, hv]),
        List.find?_cons_of_pos _ (by simp [hv])]
      rfl
    · rw [List.map_cons, List.find?_cons_of_neg _ (by simp [hf, hv]),
        List.find?_cons_of_neg _ (by simp [hv]), ih]

theorem findU_setU (l : List SimUnit) (x : String) (f : SimUnit → SimUnit)
    (hf : ∀ v, (f v).id = v.id) (uid : String) :
    findU (setU l x f) uid =
      (findU l uid).map (fun v => if v.id = x then f v else v) := by
  unfold setU
  exact findU_map_of_id (fun v => if v.id = x then f v else v)
    (fun v => by by_cases h : v.id = x <;> simp [h, hf]) l uid

theorem setU_ids (l : List SimUnit) (x : String) (f : SimUnit → SimUnit)
    (hf : ∀ v, (f v).id = v.id) :
    (setU l x f).map SimUnit.id = l.map SimUnit.id := by
  unfold setU
  rw [List.map_map]
  apply List.map_congr_left
  intro v _
  by_cases h : v.id = x <;> simp [h, hf]

/-- With unique ids, a member with the looked-up id is the unit found. -/
theorem mem_eq_of_findU_nodup {l : List SimUnit} {uid : String}
    {u d : SimUnit} (hn : (l.map SimUnit.id).Nodup)
    (hu : findU l uid = some u) (hd : d ∈ l) (hid : d.id = uid) : d = u := by
  induction l with
  | nil => cases hd
  | cons v rest ih =>
    rw [List.map_cons, List.nodup_cons] at hn
    rcases List.mem_cons.mp hd with rfl | hdr
    · unfold findU at hu
      rw [List.find?_cons_of_pos _ (by simpa using hid)] at hu
      exact Option.some_inj.mp hu
    · by_cases hv : v.id = uid
      · exfalso
        apply hn.1
        rw [hv, ← hid]
        exact List.mem_map_of_mem SimUnit.id hdr
      · unfold findU at hu
        rw [List.find?_cons_of_neg _ (by simpa using hv)] at hu
        exact ih hn.2 hu hdr

/-- Pointwise relation between a list and its image under a per-element
choice of update (used to track a unit through a phase). -/
theorem forall2_map_self {R : SimUnit → SimUnit → Prop} {l : List SimUnit}
    (g : SimUnit → SimUnit) (h : ∀ v ∈ l, R v (g v)) :
    List.Forall₂ R l (l.map g) := by
  induction l with
  | nil => exact List.Forall₂.nil
  | cons v rest ih =>
    exact List.Forall₂.cons (h v (List.mem_cons_self v rest))
      (ih fun w hw => h w (List.mem_cons_of_mem v hw))

theorem forall2_findU {R : SimUnit → SimUnit → Prop}
    (hid : ∀ a b, R a b → b.id = a.id) :
    ∀ {l l' : List SimUnit}, List.Forall₂ R l l' →
      ∀ {uid u}, findU l uid = some u →
        ∃ u', findU l' uid = some u' ∧ R u u' := by
  intro l l' h
  induction h with
  | nil => intro uid u hu; cases hu
  | @cons a b la lb hab _ ih =>
    intro uid u hu
    unfold findU at *
    by_cases ha : a.id = uid
    · rw [List.find?_cons_of_pos _ (by simpa using ha)] at hu
      exact ⟨b, by rw [List.find?_cons_of_pos _
        (by simp [hid a b hab, ha])], (Option.some_inj.mp hu) ▸ hab⟩
    · rw [List.find?_cons_of_neg _ (by simpa using ha)] at hu
      obtain ⟨u', hu', hr⟩ := ih hu
      exact ⟨u', by rw [List.find?_cons_of_neg _
        (by simp [hid a b hab, ha])]; exact hu', hr⟩

theorem forall2_mem_right {R : SimUnit → SimUnit → Prop} :
    ∀ {l l' : List SimUnit}, List.Forall₂ R l l' →
      ∀ {v'}, v' ∈ l' → ∃ v ∈ l, R v v' := by
  intro l l' h
  induction h with
  | nil => intro v' hv; cases hv
  | @cons a b la lb hab _ ih =>
    intro v' hv
    rcases List.mem_cons.mp hv with rfl | hv
    · exact ⟨a, List.mem_cons_self _ _, hab⟩
    · obtain ⟨v, hvm, hr⟩ := ih hv
      exact ⟨v, List.mem_cons_of_mem _ hvm, hr⟩

theorem forall2_ids {R : SimUnit → SimUnit → Prop}
    (hid : ∀ a b, R a b → b.id = a.id) :
    ∀ {l l' : List SimUnit}, List.Forall₂ R l l' →
      l'.map SimUnit.id = l.map SimUnit.id := by
  intro l l' h
  induction h with
  | nil => rfl
  | @cons a b la lb hab _ ih => simp [hid a b hab, ih]

theorem forall2_trans {R : SimUnit → SimUnit → Prop}
    (ht : ∀ a b c, R a b → R b c → R a c) :
    ∀ {l1 l2 l3 : List SimUnit}, List.Forall₂ R l1 l2 →
      List.Forall₂ R l2 l3 → List.Forall₂ R l1 l3 := by
  intro l1 l2 l3 h12
  induction h12 generalizing l3 with
  | nil => intro h; cases h; exact List.Forall₂.nil
  | @cons a b la lb hab _ ih =>
    intro h
    cases h with
    | cons hbc hrest => exact List.Forall₂.cons (ht _ _ _ hab hbc) (ih hrest)

theorem forall2_of_refl {R : SimUnit → SimUnit → Prop}
    (hr : ∀ a, R a a) (l : List SimUnit) : List.Forall₂ R l l := by
  induction l with
  | nil => exact List.Forall₂.nil
  | cons a la ih => exact List.Forall₂.cons (hr a) ih

/-! ### Per-phase frame relations

Each relation records which unit fields a phase can touch; the others are
carried unchanged, pointwise over the (order-preserving) unit list. -/

/-- The order phase may only write intent_target_pos and target_id. -/
def ordersFrame (a b : SimUnit) : Prop :=
  b.id = a.id ∧ b.side = a.side ∧ b.utype = a.utype ∧ b.pos = a.pos ∧
  b.hp = a.hp ∧ b.ammo = a.ammo ∧ b.routed = a.routed ∧
  b.last_fire_time = a.last_fire_time ∧ b.spotted_by = a.spotted_by

/-- The movement phase may only write pos. -/
def moveFrame (a b : SimUnit) : Prop :=
  b.id = a.id ∧ b.side = a.side ∧ b.utype = a.utype ∧ b.hp = a.hp ∧
  b.ammo = a.ammo ∧ b.target_id = a.target_id ∧
  b.intent_target_pos = a.intent_target_pos ∧ b.routed = a.routed ∧
  b.last_fire_time = a.last_fire_time ∧ b.spotted_by = a.spotted_by

/-- The spotting phase may only write spotted_by. -/
def spotFrame (a b : SimUnit) : Prop :=
  b.id = a.id ∧ b.side = a.side ∧ b.utype = a.utype ∧ b.pos = a.pos ∧
  b.hp = a.hp ∧ b.ammo = a.ammo ∧ b.target_id = a.target_id ∧
  b.intent_target_pos = a.intent_target_pos ∧ b.routed = a.routed ∧
  b.last_fire_time = a.last_fire_time

/-- The combat phase may only write hp, ammo and last_fire_time. -/
def combatFrame (a b : SimUnit) : Prop :=
  b.id = a.id ∧ b.side = a.side ∧ b.utype = a.utype ∧ b.pos = a.pos ∧
  b.target_id = a.target_id ∧ b.intent_target_pos = a.intent_target_pos ∧
  b.routed = a.routed ∧ b.spotted_by = a.spotted_by

/-- The morale phase either keeps a unit or flips routed from false to
true. -/
def moraleRel (a b : SimUnit) : Prop :=
  b = a ∨ (a.routed = false ∧ b = { a with routed := true })

theorem ordersFrame_refl (a : SimUnit) : ordersFrame a a := by
  simp [ordersFrame]

theorem moveFrame_refl (a : SimUnit) : moveFrame a a := by
  simp [moveFrame]

theorem spotFrame_refl (a : SimUnit) : spotFrame a a := by
  simp [spotFrame]

theorem combatFrame_refl (a : SimUnit) : combatFrame a a := by
  simp [combatFrame]

/-! ### Order phase lemmas -/

theorem applyOrderOne_frame (st : State) (o : Order) :
    List.Forall₂ ordersFrame st.units (applyOrderOne st o).1.units ∧
    (applyOrderOne st o).1.ts_ms = st.ts_ms := by
  unfold applyOrderOne
  rcases hf : findU st.units o.unit_id with _ | u
  · exact ⟨forall2_of_refl ordersFrame_refl _, by trivial⟩
  · dsimp only []
    by_cases hr : u.routed = true
    · rw [if_pos hr]
      exact ⟨forall2_of_refl ordersFrame_refl _, by trivial⟩
    · rw [if_neg hr]
      cases o.kind with
      | move =>
        cases o.target_pos with
        | none => exact ⟨forall2_of_refl ordersFrame_refl _, by trivial⟩
        | some tp =>
          refine ⟨forall2_map_self _ (fun v _ => ?_), by trivial⟩
          by_cases h : v.id = o.unit_id <;> simp [h, ordersFrame]
      | attack =>
        cases o.target_unit_id with
        | none => exact ⟨forall2_of_refl ordersFrame_refl _, by trivial⟩
        | some t =>
          by_cases ht : t = ""
          · simp only [ht, if_pos rfl]
            exact ⟨forall2_of_refl ordersFrame_refl _, by trivial⟩
          · simp only [if_neg ht]
            refine ⟨forall2_map_self _ (fun v _ => ?_), by trivial⟩
            by_cases h : v.id = o.unit_id <;> simp [h, ordersFrame]
      | defend =>
        refine ⟨forall2_map_self _ (fun v _ => ?_), by trivial⟩
        by_cases h : v.id = o.unit_id <;> simp [h, ordersFrame]

theorem ordersFrame_trans (a b c : SimUnit) (h1 : ordersFrame a b)
    (h2 : ordersFrame b c) : ordersFrame a c := by
  unfold ordersFrame at *
  obtain ⟨e1, e2, e3, e4, e5, e6, e7, e8, e9⟩ := h1
  obtain ⟨f1, f2, f3, f4, f5, f6, f7, f8, f9⟩ := h2
  exact ⟨f1.trans e1, f2.trans e2, f3.trans e3, f4.trans e4, f5.trans e5,
    f6.trans e6, f7.trans e7, f8.trans e8, f9.trans e9⟩

theorem applyOrdersNow_frame :
    ∀ (os : List Order) (st : State),
      List.Forall₂ ordersFrame st.units (applyOrdersNow st os).1.units ∧
      (applyOrdersNow st os).1.ts_ms = st.ts_ms := by
  intro os
  induction os with
  | nil =>
    intro st
    exact ⟨forall2_of_refl ordersFrame_refl _, rfl⟩
  | cons o rest ih =>
    intro st
    have h1 := applyOrderOne_frame st o
    have h2 := ih (applyOrderOne st o).1
    exact ⟨forall2_trans ordersFrame_trans h1.1 h2.1, h2.2.trans h1.2⟩

/-- Every event of one order application names the order's unit id and has no
shooter. -/
theorem applyOrderOne_events (st : State) (o : Order) :
    ∀ ev ∈ (applyOrderOne st o).2,
      ev.data.orderUnitOf = some o.unit_id ∧ ev.data.shooterOf = none := by
  obtain ⟨k, ouid, otp, otid, octs⟩ := o
  intro ev hev
  unfold applyOrderOne at hev
  cases hf : findU st.units ouid with
  | none => rw [hf] at hev; simp at hev
  | some u =>
    rw [hf] at hev
    have hu : u.id = ouid := (findU_mem hf).2
    dsimp only [] at hev
    by_cases hr : u.routed = true
    · rw [if_pos hr] at hev; simp at hev
    · rw [if_neg hr] at hev
      cases k with
      | move =>
        cases otp with
        | none => simp at hev
        | some tp =>
          dsimp only [] at hev
          simp only [List.mem_singleton] at hev
          subst hev
          simp [EventData.orderUnitOf, EventData.shooterOf, hu]
      | attack =>
        cases otid with
        | none => simp at hev
        | some t =>
          dsimp only [] at hev
          by_cases ht : t = ""
          · rw [if_pos ht] at hev; simp at hev
          · rw [if_neg ht] at hev
            simp only [List.mem_singleton] at hev
            subst hev
            simp [EventData.orderUnitOf, EventData.shooterOf, hu]
      | defend =>
        dsimp only [] at hev
        simp only [List.mem_singleton] at hev
        subst hev
        simp [EventData.orderUnitOf, EventData.shooterOf, hu]

/-- A routed unit is left exactly unchanged by one order application. -/
theorem applyOrderOne_routed_fixed (st : State) (o : Order) (uid : String)
    (u : SimUnit) (hu : findU st.units uid = some u) (hr : u.routed = true) :
    findU (applyOrderOne st o).1.units uid = some u := by
  obtain ⟨k, ouid, otp, otid, octs⟩ := o
  unfold applyOrderOne
  cases hf : findU st.units ouid with
  | none => exact hu
  | some w =>
    dsimp only []
    by_cases hw : w.routed = true
    · rw [if_pos hw]; exact hu
    · rw [if_neg hw]
      have hne : ouid ≠ uid := by
        intro h
        subst h
        rw [hu] at hf
        exact hw ((Option.some_inj.mp hf) ▸ hr)
      have hu_id : u.id = uid := (findU_mem hu).2
      have hval : ¬ (u.id = ouid) := by
        rw [hu_id]
        exact fun h => hne h.symm
      cases k with
      | move =>
        cases otp with
        | none => exact hu
        | some tp =>
          dsimp only []
          rw [findU_setU]
          · rw [hu]
            simp [hval]
          · exact fun v => rfl
      | attack =>
        cases otid with
        | none => exact hu
        | some t =>
          dsimp only []
          by_cases ht : t = ""
          · rw [if_pos ht]; exact hu
          · rw [if_neg ht]
            rw [findU_setU]
            · rw [hu]
              simp [hval]
            · exact fun v => rfl
      | defend =>
        dsimp only []
        rw [findU_setU]
        · rw [hu]
          simp [hval]
        · exact fun v => rfl

/-- No order application emits an OrderAccepted for a routed unit. -/
theorem applyOrderOne_routed_events (st : State) (o : Order) (uid : String)
    (u : SimUnit) (hu : findU st.units uid = some u) (hr : u.routed = true) :
    ∀ ev ∈ (applyOrderOne st o).2, ev.data.orderUnitOf ≠ some uid := by
  intro ev hev
  by_cases hid : o.unit_id = uid
  · exfalso
    unfold applyOrderOne at hev
    rw [hid, hu] at hev
    dsimp only [] at hev
    rw [if_pos hr] at hev
    simp at hev
  · rw [(applyOrderOne_events st o ev hev).1]
    simp [hid]

/-- The whole order phase leaves a routed unit unchanged and emits no
OrderAccepted naming it. -/
theorem applyOrdersNow_routed :
    ∀ (os : List Order) (st : State) (uid : String) (u : SimUnit),
      findU st.units uid = some u → u.routed = true →
      findU (applyOrdersNow st os).1.units uid = some u ∧
      ∀ ev ∈ (applyOrdersNow st os).2, ev.data.orderUnitOf ≠ some uid := by
  intro os
  induction os with
  | nil =>
    intro st uid u hu hr
    exact ⟨hu, by intro ev hev; simp [applyOrdersNow] at hev⟩
  | cons o rest ih =>
    intro st uid u hu hr
    have h1 := applyOrderOne_routed_fixed st o uid u hu hr
    have h2 := applyOrderOne_routed_events st o uid u hu hr
    have h3 := ih (applyOrderOne st o).1 uid u h1 hr
    refine ⟨h3.1, ?_⟩
    intro ev hev
    simp only [applyOrdersNow, List.mem_append] at hev
    rcases hev with h | h
    · exact h2 ev h
    · exact h3.2 ev h

/-! ### Movement phase lemmas -/

theorem moveUnit_frame (ops : MathOps) (dt_ms : ℤ) (u : SimUnit) :
    moveFrame u (moveUnit ops dt_ms u) := by
  unfold moveUnit
  dsimp only []
  repeat' split
  all_goals simp [moveFrame]

theorem moveUnit_routed (ops : MathOps) (dt_ms : ℤ) (u : SimUnit)
    (hr : u.routed = true) : moveUnit ops dt_ms u = u := by
  unfold moveUnit
  rw [if_pos (Or.inr hr)]

theorem movePhase_frame (ops : MathOps) (dt_ms : ℤ) (st : State) :
    List.Forall₂ moveFrame st.units (movePhase ops dt_ms st).1.units :=
  forall2_map_self _ (fun v _ => moveUnit_frame ops dt_ms v)

/-! ### Spotting phase lemmas -/

theorem spotPhase_frame (ops : MathOps) (st : State) :
    List.Forall₂ spotFrame st.units (spotPhase ops st).1.units :=
  forall2_map_self _ (fun v _ => by simp [spotFrame])

/-- Anyone listed in a recomputed spotted_by set is a non-routed member of
the unit list with a differing side that detects the target. -/
theorem spotList_detector (ops : MathOps) (l : List SimUnit) (t : SimUnit)
    (uid : String) (h : uid ∈ spotListFor ops l t) :
    ∃ d ∈ l, d.id = uid ∧ d.routed = false ∧ d.side ≠ t.side ∧
      canDetect ops d t = true := by
  unfold spotListFor at h
  simp only [List.mem_map, List.mem_filter, Bool.and_eq_true,
    Bool.not_eq_true', decide_eq_true_eq] at h
  obtain ⟨d, ⟨hdmem, ⟨hroute, hside⟩, hdet⟩, hid⟩ := h
  exact ⟨d, hdmem, hid, hroute, hside, hdet⟩

/-- Conversely every non-routed opposing detector in range is listed. -/
theorem spotList_detector_mem (ops : MathOps) (l : List SimUnit)
    (t d : SimUnit) (hmem : d ∈ l) (hroute : d.routed = false)
    (hside : d.side ≠ t.side) (hdet : canDetect ops d t = true) :
    d.id ∈ spotListFor ops l t := by
  unfold spotListFor
  refine List.mem_map_of_mem SimUnit.id ?_
  rw [List.mem_filter]
  exact ⟨hmem, by simp [hroute, hside, hdet]⟩

/-! ### Morale phase lemmas -/

theorem moraleUnit_rel (ops : MathOps) (ts : ℤ) (u : SimUnit) (rng : DRNG) :
    moraleRel u (moraleUnit ops ts u rng).1 := by
  unfold moraleUnit moraleRel
  dsimp only []
  repeat' split
  all_goals simp_all

theorem moraleUnit_routed (ops : MathOps) (ts : ℤ) (u : SimUnit) (rng : DRNG)
    (hr : u.routed = true) : moraleUnit ops ts u rng = (u, rng, []) := by
  unfold moraleUnit
  rw [if_pos hr]

theorem moraleRun_forall2 (ops : MathOps) (ts : ℤ) :
    ∀ (us : List SimUnit) (rng : DRNG),
      List.Forall₂ moraleRel us (moraleRun ops ts us rng).1 := by
  intro us
  induction us with
  | nil => intro rng; exact List.Forall₂.nil
  | cons u rest ih =>
    intro rng
    simp only [moraleRun]
    exact List.Forall₂.cons (moraleUnit_rel ops ts u rng) (ih _)

theorem moraleUnit_payload (ops : MathOps) (ts : ℤ) (u : SimUnit)
    (rng : DRNG) : ∀ ev ∈ (moraleUnit ops ts u rng).2.2,
      ev.data.orderUnitOf = none ∧ ev.data.shooterOf = none := by
  intro ev hev
  unfold moraleUnit at hev
  dsimp only [] at hev
  repeat' split at hev
  all_goals simp_all [EventData.orderUnitOf, EventData.shooterOf]

theorem moraleRun_payload (ops : MathOps) (ts : ℤ) :
    ∀ (us : List SimUnit) (rng : DRNG),
      ∀ ev ∈ (moraleRun ops ts us rng).2.2,
        ev.data.orderUnitOf = none ∧ ev.data.shooterOf = none := by
  intro us
  induction us with
  | nil => intro rng ev hev; simp [moraleRun] at hev
  | cons u rest ih =>
    intro rng ev hev
    simp only [moraleRun, List.mem_append] at hev
    rcases hev with h | h
    · exact moraleUnit_payload ops ts u rng ev h
    · exact ih _ ev h

/-! ### Combat phase lemmas -/

/-- The number of ShotFired events with the given shooter. -/
def countShotsBy (uid : String) (evs : List Event) : ℕ :=
  evs.countP (fun ev => ev.data.shooterOf == some uid)

theorem combatFrame_trans (a b c : SimUnit) (h1 : combatFrame a b)
    (h2 : combatFrame b c) : combatFrame a c := by
  unfold combatFrame at *
  obtain ⟨e1, e2, e3, e4, e5, e6, e7, e8⟩ := h1
  obtain ⟨f1, f2, f3, f4, f5, f6, f7, f8⟩ := h2
  exact ⟨f1.trans e1, f2.trans e2, f3.trans e3, f4.trans e4, f5.trans e5,
    f6.trans e6, f7.trans e7, f8.trans e8⟩

theorem combatOne_frame (ops : MathOps) (ba dm : ℚ) (st : State) (rng : DRNG)
    (pr : String × String) :
    List.Forall₂ combatFrame st.units
      (combatOne ops ba dm st rng pr).1.units := by
  unfold combatOne
  cases hf1 : findU st.units pr.1 with
  | none => exact forall2_of_refl combatFrame_refl _
  | some s =>
    cases hf2 : findU st.units pr.2 with
    | none => exact forall2_of_refl combatFrame_refl _
    | some t =>
      dsimp only []
      have hshoot : List.Forall₂ combatFrame st.units
          (setU st.units s.id (fun v =>
            { v with ammo := v.ammo - 1,
                     last_fire_time := (st.ts_ms : ℚ) })) :=
        forall2_map_self _ (fun v _ => by
          by_cases h : v.id = s.id <;> simp [h, combatFrame])
      have hfull : List.Forall₂ combatFrame st.units
          (setU (setU st.units s.id (fun v =>
            { v with ammo := v.ammo - 1,
                     last_fire_time := (st.ts_ms : ℚ) })) t.id (fun v =>
            { v with hp := v.hp - calculate_damage s t s.get_type.damage })) :=
        forall2_trans combatFrame_trans hshoot
          (forall2_map_self _ (fun v _ => by
            by_cases h : v.id = t.id <;> simp [h, combatFrame]))
      repeat' split
      all_goals first
        | exact forall2_of_refl combatFrame_refl _
        | exact hshoot
        | exact hfull

/-- Tracking a unit's ammo through one combat resolution: it drops by
exactly the number of ShotFired events whose shooter is that unit. -/
theorem combatOne_track (ops : MathOps) (ba dm : ℚ) (st : State) (rng : DRNG)
    (pr : String × String) (uid : String) (w : SimUnit)
    (hw : findU st.units uid = some w) :
    ∃ w', findU (combatOne ops ba dm st rng pr).1.units uid = some w' ∧
      w'.ammo = w.ammo -
        (countShotsBy uid (combatOne ops ba dm st rng pr).2.2 : ℤ) := by
  unfold combatOne
  cases hf1 : findU st.units pr.1 with
  | none => exact ⟨w, hw, by simp [countShotsBy]⟩
  | some s =>
    cases hf2 : findU st.units pr.2 with
    | none => exact ⟨w, hw, by simp [countShotsBy]⟩
    | some t =>
      dsimp only []
      have hsid : s.id = pr.1 := (findU_mem hf1).2
      have hwid : w.id = uid := (findU_mem hw).2
      have hshoot : findU (setU st.units s.id (fun v =>
          { v with ammo := v.ammo - 1,
                   last_fire_time := (st.ts_ms : ℚ) })) uid =
          some (if w.id = s.id then
            { w with ammo := w.ammo - 1, last_fire_time := (st.ts_ms : ℚ) }
            else w) := by
        rw [findU_setU]
        · rw [hw]
          rfl
        · exact fun v => rfl
      have hfull : findU (setU (setU st.units s.id (fun v =>
          { v with ammo := v.ammo - 1,
                   last_fire_time := (st.ts_ms : ℚ) })) t.id (fun v =>
          { v with hp := v.hp - calculate_damage s t s.get_type.damage }))
            uid =
          some (if (if w.id = s.id then
              { w with ammo := w.ammo - 1, last_fire_time := (st.ts_ms : ℚ) }
              else w).id = t.id then
            { (if w.id = s.id then
              { w with ammo := w.ammo - 1, last_fire_time := (st.ts_ms : ℚ) }
              else w) with hp := (if w.id = s.id then
              { w with ammo := w.ammo - 1, last_fire_time := (st.ts_ms : ℚ) }
              else w).hp - calculate_damage s t s.get_type.damage }
            else (if w.id = s.id then
              { w with ammo := w.ammo - 1, last_fire_time := (st.ts_ms : ℚ) }
              else w)) := by
        rw [findU_setU]
        · rw [hshoot]
          rfl
        · exact fun v => rfl
      by_cases hpu : s.id = uid
      · have hws : w.id = s.id := by rw [hwid, hpu]
        repeat' split
        all_goals first
          | exact ⟨w, hw, by simp [countShotsBy]⟩
          | (refine ⟨_, hfull, ?_⟩
             simp [hws, countShotsBy, EventData.shooterOf, hpu]
             split <;> simp)
          | (refine ⟨_, hshoot, ?_⟩
             simp [hws, countShotsBy, EventData.shooterOf, hpu])
      · have hws : ¬ (w.id = s.id) := by rw [hwid]; exact fun h => hpu h.symm
        repeat' split
        all_goals first
          | exact ⟨w, hw, by simp [countShotsBy]⟩
          | (refine ⟨_, hfull, ?_⟩
             simp [hws, countShotsBy, EventData.shooterOf, hpu]
             split <;> simp)
          | (refine ⟨_, hshoot, ?_⟩
             simp [hws, countShotsBy, EventData.shooterOf, hpu])

theorem combatRun_frame (ops : MathOps) (ba dm : ℚ) :
    ∀ (prs : List (String × String)) (st : State) (rng : DRNG),
      List.Forall₂ combatFrame st.units
        (combatRun ops ba dm st rng prs).1.units := by
  intro prs
  induction prs with
  | nil => intro st rng; exact forall2_of_refl combatFrame_refl _
  | cons pr rest ih =>
    intro st rng
    simp only [combatRun]
    exact forall2_trans combatFrame_trans
      (combatOne_frame ops ba dm st rng pr) (ih _ _)

theorem combatRun_track (ops : MathOps) (ba dm : ℚ) :
    ∀ (prs : List (String × String)) (st : State) (rng : DRNG)
      (uid : String) (w : SimUnit), findU st.units uid = some w →
      ∃ w', findU (combatRun ops ba dm st rng prs).1.units uid = some w' ∧
        w'.ammo = w.ammo -
          (countShotsBy uid (combatRun ops ba dm st rng prs).2.2 : ℤ) := by
  intro prs
  induction prs with
  | nil =>
    intro st rng uid w hw
    exact ⟨w, hw, by simp [countShotsBy, combatRun]⟩
  | cons pr rest ih =>
    intro st rng uid w hw
    obtain ⟨w1, hw1, he1⟩ := combatOne_track ops ba dm st rng pr uid w hw
    obtain ⟨w2, hw2, he2⟩ :=
      ih (combatOne ops ba dm st rng pr).1 (combatOne ops ba dm st rng pr).2.1
        uid w1 hw1
    refine ⟨w2, ?_, ?_⟩
    · simpa only [combatRun] using hw2
    · simp only [combatRun, countShotsBy, List.countP_append]
      rw [he2, he1]
      unfold countShotsBy
      push_cast
      ring

/-- One combat resolution fires at most one shot, and only by the pair's
shooter. -/
theorem combatOne_shot_bound (ops : MathOps) (ba dm : ℚ) (st : State)
    (rng : DRNG) (pr : String × String) (uid : String) :
    countShotsBy uid (combatOne ops ba dm st rng pr).2.2 ≤
      if pr.1 = uid then 1 else 0 := by
  unfold combatOne
  cases hf1 : findU st.units pr.1 with
  | none => simp [countShotsBy]
  | some s =>
    cases hf2 : findU st.units pr.2 with
    | none => simp [countShotsBy]
    | some t =>
      dsimp only []
      have hsid : s.id = pr.1 := (findU_mem hf1).2
      repeat' split
      all_goals simp_all [countShotsBy, EventData.shooterOf, List.countP_cons]

theorem combatRun_shot_bound (ops : MathOps) (ba dm : ℚ) :
    ∀ (prs : List (String × String)) (st : State) (rng : DRNG)
      (uid : String),
      countShotsBy uid (combatRun ops ba dm st rng prs).2.2 ≤
        (prs.map Prod.fst).count uid := by
  intro prs
  induction prs with
  | nil => intro st rng uid; simp [countShotsBy, combatRun]
  | cons pr rest ih =>
    intro st rng uid
    have h1 := combatOne_shot_bound ops ba dm st rng pr uid
    have h2 := ih (combatOne ops ba dm st rng pr).1
      (combatOne ops ba dm st rng pr).2.1 uid
    have hsum : countShotsBy uid (combatRun ops ba dm st rng (pr :: rest)).2.2
        = countShotsBy uid (combatOne ops ba dm st rng pr).2.2 +
          countShotsBy uid (combatRun ops ba dm
            (combatOne ops ba dm st rng pr).1
            (combatOne ops ba dm st rng pr).2.1 rest).2.2 := by
      simp [combatRun, countShotsBy, List.countP_append]
    have hcnt : (((pr :: rest).map Prod.fst).count uid) =
        (if pr.1 = uid then 1 else 0) + ((rest.map Prod.fst).count uid) := by
      by_cases h : pr.1 = uid
      · subst h
        simp [List.count_cons, Nat.add_comm]
      · have h2 : ¬ (uid = pr.1) := fun hh => h hh.symm
        simp [List.count_cons, h, h2]
    rw [hsum, hcnt]
    by_cases h : pr.1 = uid
    · rw [if_pos h] at h1 ⊢
      omega
    · rw [if_neg h] at h1 ⊢
      omega

/-- Combat events never carry an OrderAccepted payload, and any shooter they
name is the pair's shooter. -/
theorem combatOne_payload (ops : MathOps) (ba dm : ℚ) (st : State)
    (rng : DRNG) (pr : String × String) :
    ∀ ev ∈ (combatOne ops ba dm st rng pr).2.2,
      ev.data.orderUnitOf = none ∧
      (ev.data.shooterOf = none ∨ ev.data.shooterOf = some pr.1) := by
  intro ev hev
  unfold combatOne at hev
  cases hf1 : findU st.units pr.1 with
  | none => rw [hf1] at hev; simp at hev
  | some s =>
    cases hf2 : findU st.units pr.2 with
    | none => rw [hf1, hf2] at hev; simp at hev
    | some t =>
      rw [hf1, hf2] at hev
      have hsid : s.id = pr.1 := (findU_mem hf1).2
      dsimp only [] at hev
      repeat' split at hev
      all_goals simp only [List.mem_cons, List.not_mem_nil, or_false] at hev
      all_goals first
        | exact hev.elim
        | ((rcases hev with rfl | rfl | rfl) <;>
            simp [EventData.orderUnitOf, EventData.shooterOf, hsid])

theorem combatRun_payload (ops : MathOps) (ba dm : ℚ) :
    ∀ (prs : List (String × String)) (st : State) (rng : DRNG),
      ∀ ev ∈ (combatRun ops ba dm st rng prs).2.2,
        ev.data.orderUnitOf = none ∧
        (ev.data.shooterOf = none ∨
          ∃ pr ∈ prs, ev.data.shooterOf = some pr.1) := by
  intro prs
  induction prs with
  | nil => intro st rng ev hev; simp [combatRun] at hev
  | cons pr rest ih =>
    intro st rng ev hev
    simp only [combatRun, List.mem_append] at hev
    rcases hev with h | h
    · obtain ⟨h1, h2⟩ := combatOne_payload ops ba dm st rng pr ev h
      refine ⟨h1, ?_⟩
      rcases h2 with h2 | h2
      · exact Or.inl h2
      · exact Or.inr ⟨pr, List.mem_cons_self pr rest, h2⟩
    · obtain ⟨h1, h2⟩ := ih _ _ ev h
      refine ⟨h1, ?_⟩
      rcases h2 with h2 | ⟨pr', hpr', h2⟩
      · exact Or.inl h2
      · exact Or.inr ⟨pr', List.mem_cons_of_mem pr hpr', h2⟩

/-! ### Targeting phase lemmas -/

/-- Fire eligibility requires positive ammo. -/
theorem canFireAt_ammo_pos (ops : MathOps) (ct : ℤ) (a t : SimUnit)
    (h : canFireAt ops ct a t = true) : 0 < a.ammo := by
  unfold canFireAt at h
  dsimp only [] at h
  repeat' split at h
  all_goals first
    | exact Bool.noConfusion h
    | omega

theorem betterTarget_fold_spec (ops : MathOps) (ts : ℤ) (u : SimUnit) :
    ∀ (l : List SimUnit) (acc : Option (String × ℚ)) (b : String × ℚ),
      l.foldl (betterTarget ops ts u) acc = some b →
      acc = some b ∨ ∃ t ∈ l, t.id = b.1 ∧ ¬(u.side = t.side) ∧ 0 < t.hp ∧
        canFireAt ops ts u t = true := by
  intro l
  induction l with
  | nil => intro acc b h; exact Or.inl h
  | cons t rest ih =>
    intro acc b h
    rw [List.foldl_cons] at h
    rcases ih _ b h with hacc | ⟨t', ht', h1, h2, h3, h4⟩
    · unfold betterTarget at hacc
      by_cases hguard : u.side = t.side ∨ t.hp ≤ 0
      · rw [if_pos hguard] at hacc
        exact Or.inl hacc
      · rw [if_neg hguard] at hacc
        push_neg at hguard
        by_cases hcf : canFireAt ops ts u t = true
        · rw [if_pos hcf] at hacc
          dsimp only [] at hacc
          cases hb : acc with
          | none =>
            rw [hb] at hacc
            dsimp only [] at hacc
            right
            refine ⟨t, List.mem_cons_self t rest, ?_, hguard.1, hguard.2, hcf⟩
            have hbe := Option.some_inj.mp hacc
            rw [← hbe]
          | some b0 =>
            rw [hb] at hacc
            dsimp only [] at hacc
            by_cases hd : distance_2d ops u.pos t.pos < b0.2
            · rw [if_pos hd] at hacc
              right
              refine ⟨t, List.mem_cons_self t rest, ?_, hguard.1, hguard.2, hcf⟩
              have hbe := Option.some_inj.mp hacc
              rw [← hbe]
            · rw [if_neg hd] at hacc
              left
              exact hacc
        · simp only [Bool.not_eq_true] at hcf
          rw [hcf] at hacc
          simp only [if_false] at hacc
          exact Or.inl hacc
    · exact Or.inr ⟨t', List.mem_cons_of_mem t ht', h1, h2, h3, h4⟩

theorem findTargets_spec (ops : MathOps) (st : State) :
    ∀ pr ∈ findTargets ops st,
      ∃ su ∈ st.units, su.id = pr.1 ∧ su.routed = false ∧
        ∃ tu ∈ st.units, tu.id = pr.2 ∧ ¬(su.side = tu.side) ∧ 0 < tu.hp ∧
          canFireAt ops st.ts_ms su tu = true := by
  intro pr hpr
  unfold findTargets at hpr
  rw [List.mem_filterMap] at hpr
  obtain ⟨u, hu_mem, hu_eq⟩ := hpr
  by_cases hr : u.routed = true
  · rw [if_pos hr] at hu_eq
    cases hu_eq
  · rw [if_neg hr] at hu_eq
    cases hfold : st.units.foldl (betterTarget ops st.ts_ms u) none with
    | none =>
      rw [hfold] at hu_eq
      cases hu_eq
    | some b =>
      rw [hfold] at hu_eq
      dsimp only [] at hu_eq
      by_cases hb : b.1 = ""
      · rw [if_pos hb] at hu_eq
        cases hu_eq
      · rw [if_neg hb] at hu_eq
        have hpr_eq := Option.some_inj.mp hu_eq
        rcases betterTarget_fold_spec ops st.ts_ms u st.units none b hfold
          with h | ⟨tu, htu, h1, h2, h3, h4⟩
        · cases h
        · refine ⟨u, hu_mem, ?_, by simpa using hr, tu, htu, ?_, h2, h3, h4⟩
          · rw [← hpr_eq]
          · rw [← hpr_eq]
            exact h1

theorem keys_sublist (f : SimUnit → Option (String × String))
    (hf : ∀ u r, f u = some r → r.1 = u.id) :
    ∀ l : List SimUnit,
      ((l.filterMap f).map Prod.fst).Sublist (l.map SimUnit.id) := by
  intro l
  induction l with
  | nil => simp
  | cons u rest ih =>
    rw [List.filterMap_cons]
    cases hfu : f u with
    | none =>
      rw [List.map_cons]
      exact ih.cons _
    | some r =>
      rw [List.map_cons, List.map_cons, hf u r hfu]
      exact ih.cons₂ _

theorem findTargets_keys_sublist (ops : MathOps) (st : State) :
    ((findTargets ops st).map Prod.fst).Sublist
      (st.units.map SimUnit.id) := by
  unfold findTargets
  apply keys_sublist
  intro u r hr
  by_cases hru : u.routed = true
  · rw [if_pos hru] at hr
    cases hr
  · rw [if_neg hru] at hr
    cases hfold : st.units.foldl (betterTarget ops st.ts_ms u) none with
    | none => rw [hfold] at hr; cases hr
    | some b =>
      rw [hfold] at hr
      dsimp only [] at hr
      by_cases hb : b.1 = ""
      · rw [if_pos hb] at hr
        cases hr
      · rw [if_neg hb] at hr
        rw [← Option.some_inj.mp hr]

/-! ### Step-level composition lemmas -/

theorem moraleRel_id (a b : SimUnit) (h : moraleRel a b) : b.id = a.id := by
  rcases h with rfl | ⟨_, rfl⟩ <;> rfl

theorem moraleRel_fields (a b : SimUnit) (h : moraleRel a b) :
    b.id = a.id ∧ b.pos = a.pos ∧ b.ammo = a.ammo ∧ b.hp = a.hp ∧
    b.spotted_by = a.spotted_by ∧ b.intent_target_pos = a.intent_target_pos ∧
    b.target_id = a.target_id ∧ b.side = a.side ∧ b.utype = a.utype ∧
    (a.routed = true → b = a) := by
  rcases h with rfl | ⟨ha, rfl⟩
  · exact ⟨rfl, rfl, rfl, rfl, rfl, rfl, rfl, rfl, rfl, fun _ => rfl⟩
  · refine ⟨rfl, rfl, rfl, rfl, rfl, rfl, rfl, rfl, rfl, fun h => ?_⟩
    rw [ha] at h
    cases h

/-- A routed unit is never selected as a shooter by the targeting phase. -/
theorem routed_not_shooter (ops : MathOps) (st : State) (uid : String)
    (w : SimUnit) (hn : (st.units.map SimUnit.id).Nodup)
    (hw : findU st.units uid = some w) (hr : w.routed = true) :
    ∀ pr ∈ findTargets ops st, pr.1 ≠ uid := by
  intro pr hpr heq
  obtain ⟨su, hsu_mem, hsu_id, hsu_routed, _⟩ := findTargets_spec ops st pr hpr
  have : su = w := mem_eq_of_findU_nodup hn hw hsu_mem (hsu_id.trans heq)
  rw [this, hr] at hsu_routed
  cases hsu_routed

/-- Order events never name a shooter. -/
theorem applyOrdersNow_payload :
    ∀ (os : List Order) (st : State),
      ∀ ev ∈ (applyOrdersNow st os).2, ev.data.shooterOf = none := by
  intro os
  induction os with
  | nil => intro st ev hev; simp [applyOrdersNow] at hev
  | cons o rest ih =>
    intro st ev hev
    simp only [applyOrdersNow, List.mem_append] at hev
    rcases hev with h | h
    · exact (applyOrderOne_events st o ev h).2
    · exact ih _ ev h

theorem ordersFrame_id (a b : SimUnit) (h : ordersFrame a b) : b.id = a.id :=
  h.1

theorem moveFrame_id (a b : SimUnit) (h : moveFrame a b) : b.id = a.id := h.1

theorem spotFrame_id (a b : SimUnit) (h : spotFrame a b) : b.id = a.id := h.1

theorem combatFrame_id (a b : SimUnit) (h : combatFrame a b) : b.id = a.id :=
  h.1

/-- One step never changes the unit id sequence. -/
theorem step_ids (ops : MathOps) (e : Engine) (dt_ms : ℤ) :
    (Engine.step ops e dt_ms).2.state.units.map SimUnit.id =
      e.state.units.map SimUnit.id := by
  rw [step_state_decomp]
  have h1 := (applyOrdersNow_frame e.pending_orders e.state).1
  have h2 := movePhase_frame ops dt_ms (stepOrderPart e).1
  have h3 := spotPhase_frame ops (movePhase ops dt_ms (stepOrderPart e).1).1
  have h4 := combatRun_frame ops e.base_acc e.decay_m
    (findTargets ops (stepSpottedState ops e dt_ms))
    (stepSpottedState ops e dt_ms) e.rng
  have h5 := moraleRun_forall2 ops (stepCombatPart ops e dt_ms).1.ts_ms
    (stepCombatPart ops e dt_ms).1.units (stepCombatPart ops e dt_ms).2.1
  have e1 := forall2_ids ordersFrame_id h1
  have e2 := forall2_ids moveFrame_id h2
  have e3 := forall2_ids spotFrame_id h3
  have e4 := forall2_ids combatFrame_id h4
  have e5 := forall2_ids moraleRel_id h5
  show (stepMoralePart ops e dt_ms).1.units.map SimUnit.id = _
  have hu5 : (stepMoralePart ops e dt_ms).1.units =
      (moraleRun ops (stepCombatPart ops e dt_ms).1.ts_ms
        (stepCombatPart ops e dt_ms).1.units
        (stepCombatPart ops e dt_ms).2.1).1 := rfl
  rw [hu5, e5]
  have hu4 : (stepCombatPart ops e dt_ms).1.units =
      (combatRun ops e.base_acc e.decay_m (stepSpottedState ops e dt_ms)
        e.rng (findTargets ops (stepSpottedState ops e dt_ms))).1.units := rfl
  rw [hu4, e4]
  have hu3 : (stepSpottedState ops e dt_ms).units =
      (spotPhase ops (movePhase ops dt_ms (stepOrderPart e).1).1).1.units :=
    rfl
  rw [hu3, e3, e2]
  exact e1

/-- Through one whole step, a routed unit stays routed, keeps its position,
ammo and intent fields, no event names it as ordered unit or shooter, and
after the step no unit's spotted_by set contains it. -/
theorem step_routed_track (ops : MathOps) (e : Engine) (dt_ms : ℤ)
    (uid : String) (u : SimUnit)
    (hn : (e.state.units.map SimUnit.id).Nodup)
    (hu : findU e.state.units uid = some u) (hr : u.routed = true) :
    ∃ u', findU (Engine.step ops e dt_ms).2.state.units uid = some u' ∧
      u'.routed = true ∧ u'.pos = u.pos ∧ u'.ammo = u.ammo ∧
      u'.intent_target_pos = u.intent_target_pos ∧
      u'.target_id = u.target_id ∧
      (∀ ev ∈ (Engine.step ops e dt_ms).1,
        ev.data.orderUnitOf ≠ some uid ∧ ev.data.shooterOf ≠ some uid) ∧
      (∀ v ∈ (Engine.step ops e dt_ms).2.state.units, uid ∉ v.spotted_by) := by
  -- Phase 1: orders leave the routed unit unchanged.
  obtain ⟨h1find0, h1evts⟩ :=
    applyOrdersNow_routed e.pending_orders e.state uid u hu hr
  have h1find : findU (stepOrderPart e).1.units uid = some u := h1find0
  have ids1 : (stepOrderPart e).1.units.map SimUnit.id =
      e.state.units.map SimUnit.id :=
    forall2_ids ordersFrame_id (applyOrdersNow_frame e.pending_orders e.state).1
  have hn1 : ((stepOrderPart e).1.units.map SimUnit.id).Nodup := by
    rw [ids1]; exact hn
  -- Phase 2: movement skips routed units.
  have h2find : findU (movePhase ops dt_ms (stepOrderPart e).1).1.units uid =
      some u := by
    show findU ((stepOrderPart e).1.units.map (moveUnit ops dt_ms)) uid = _
    rw [findU_map_of_id (moveUnit ops dt_ms)
      (fun v => (moveUnit_frame ops dt_ms v).1), h1find]
    simp [moveUnit_routed ops dt_ms u hr]
  have ids2 : (movePhase ops dt_ms (stepOrderPart e).1).1.units.map SimUnit.id
      = (stepOrderPart e).1.units.map SimUnit.id :=
    forall2_ids moveFrame_id (movePhase_frame ops dt_ms (stepOrderPart e).1)
  have hn2 : ((movePhase ops dt_ms
      (stepOrderPart e).1).1.units.map SimUnit.id).Nodup := by
    rw [ids2]; exact hn1
  -- Phase 3: spotting rewrites spotted_by only, and never lists a routed
  -- detector.
  have h3find : findU (stepSpottedState ops e dt_ms).units uid =
      some { u with spotted_by := (spotListFor ops
        (movePhase ops dt_ms (stepOrderPart e).1).1.units u) } := by
    show findU ((movePhase ops dt_ms (stepOrderPart e).1).1.units.map
      (fun t => { t with spotted_by := (spotListFor ops
        (movePhase ops dt_ms (stepOrderPart e).1).1.units t) })) uid = _
    rw [findU_map_of_id (fun t => { t with spotted_by := (spotListFor ops
      (movePhase ops dt_ms (stepOrderPart e).1).1.units t) })
      (fun v => rfl), h2find]
    rfl
  have ids3 : (stepSpottedState ops e dt_ms).units.map SimUnit.id =
      (movePhase ops dt_ms (stepOrderPart e).1).1.units.map SimUnit.id :=
    forall2_ids spotFrame_id
      (spotPhase_frame ops (movePhase ops dt_ms (stepOrderPart e).1).1)
  have hn3 : ((stepSpottedState ops e dt_ms).units.map SimUnit.id).Nodup := by
    rw [ids3]; exact hn2
  have hspot3 : ∀ v ∈ (stepSpottedState ops e dt_ms).units,
      uid ∉ v.spotted_by := by
    intro v hv hmem
    have hv2 : ∃ t ∈ (movePhase ops dt_ms (stepOrderPart e).1).1.units,
        ({ t with spotted_by := (spotListFor ops
          (movePhase ops dt_ms (stepOrderPart e).1).1.units t) }) = v := by
      simpa [stepSpottedState, spotPhase, List.mem_map] using hv
    obtain ⟨t, ht, hteq⟩ := hv2
    rw [← hteq] at hmem
    obtain ⟨d, hd_mem, hd_id, hd_routed, _⟩ :=
      spotList_detector ops _ t uid hmem
    have : d = u := mem_eq_of_findU_nodup hn2 h2find hd_mem hd_id
    rw [this, hr] at hd_routed
    cases hd_routed
  -- Phase 4: targeting never selects the routed unit as shooter.
  have htgt : ∀ pr ∈ findTargets ops (stepSpottedState ops e dt_ms),
      pr.1 ≠ uid :=
    routed_not_shooter ops (stepSpottedState ops e dt_ms) uid _ hn3 h3find hr
  -- Phase 5: combat leaves everything of the tracked unit except hp.
  obtain ⟨u4, h4find, h4frame⟩ :=
    forall2_findU combatFrame_id
      (combatRun_frame ops e.base_acc e.decay_m
        (findTargets ops (stepSpottedState ops e dt_ms))
        (stepSpottedState ops e dt_ms) e.rng) h3find
  obtain ⟨u4', h4find', h4ammo⟩ :=
    combatRun_track ops e.base_acc e.decay_m
      (findTargets ops (stepSpottedState ops e dt_ms))
      (stepSpottedState ops e dt_ms) e.rng uid _ h3find
  have hu4eq : u4' = u4 := by
    have := h4find.symm.trans h4find'
    exact (Option.some_inj.mp this).symm
  have hkey0 : (((findTargets ops
      (stepSpottedState ops e dt_ms)).map Prod.fst).count uid) = 0 := by
    rw [List.count_eq_zero]
    intro hmem
    rw [List.mem_map] at hmem
    obtain ⟨pr, hpr, hpr_eq⟩ := hmem
    exact htgt pr hpr hpr_eq
  have hcnt0 : countShotsBy uid (combatRun ops e.base_acc e.decay_m
      (stepSpottedState ops e dt_ms) e.rng
      (findTargets ops (stepSpottedState ops e dt_ms))).2.2 = 0 := by
    have := combatRun_shot_bound ops e.base_acc e.decay_m
      (findTargets ops (stepSpottedState ops e dt_ms))
      (stepSpottedState ops e dt_ms) e.rng uid
    rw [hkey0] at this
    omega
  have h4ammo' : u4.ammo = u.ammo := by
    rw [← hu4eq]
    rw [h4ammo, hcnt0]
    simp
  -- Phase 6: morale skips the already-routed unit.
  obtain ⟨u5, h5find, h5rel⟩ :=
    forall2_findU moraleRel_id
      (moraleRun_forall2 ops (stepCombatPart ops e dt_ms).1.ts_ms
        (stepCombatPart ops e dt_ms).1.units
        (stepCombatPart ops e dt_ms).2.1) h4find
  have h4routed : u4.routed = true := by
    rw [h4frame.2.2.2.2.2.2.1]; exact hr
  have h5eq : u5 = u4 := (moraleRel_fields u4 u5 h5rel).2.2.2.2.2.2.2.2.2
    h4routed
  -- Assemble.
  have hfinal_units : (Engine.step ops e dt_ms).2.state.units =
      (moraleRun ops (stepCombatPart ops e dt_ms).1.ts_ms
        (stepCombatPart ops e dt_ms).1.units
        (stepCombatPart ops e dt_ms).2.1).1 := by
    rw [step_state_decomp]
    rfl
  refine ⟨u5, ?_, ?_, ?_, ?_, ?_, ?_, ?_, ?_⟩

  · rw [hfinal_units]; exact h5find
  · rw [h5eq]; exact h4routed
  · rw [h5eq, h4frame.2.2.2.1]
  · rw [h5eq, h4ammo']
  · rw [h5eq, h4frame.2.2.2.2.2.1]
  · rw [h5eq, h4frame.2.2.2.2.1]
  · intro ev hev
    rw [step_events_decomp] at hev
    simp only [List.mem_append] at hev
    rcases hev with (h | h) | h
    · exact ⟨h1evts ev h, by
        rw [applyOrdersNow_payload e.pending_orders e.state ev h]
        simp⟩
    · obtain ⟨hord, hsh⟩ := combatRun_payload ops e.base_acc e.decay_m
        (findTargets ops (stepSpottedState ops e dt_ms))
        (stepSpottedState ops e dt_ms) e.rng ev h
      refine ⟨by rw [hord]; simp, ?_⟩
      rcases hsh with hsh | ⟨pr, hpr, hsh⟩
      · rw [hsh]
        exact fun hX => Option.noConfusion hX
      · rw [hsh]
        exact fun hX => htgt pr hpr (Option.some_inj.mp hX)
    · obtain ⟨hord, hsh⟩ := moraleRun_payload ops
        (stepCombatPart ops e dt_ms).1.ts_ms
        (stepCombatPart ops e dt_ms).1.units
        (stepCombatPart ops e dt_ms).2.1 ev h
      exact ⟨by rw [hord]; simp, by rw [hsh]; simp⟩
  · intro v hv
    rw [hfinal_units] at hv
    obtain ⟨v4, hv4_mem, hv4_rel⟩ :=
      forall2_mem_right (moraleRun_forall2 ops
        (stepCombatPart ops e dt_ms).1.ts_ms
        (stepCombatPart ops e dt_ms).1.units
        (stepCombatPart ops e dt_ms).2.1) hv
    obtain ⟨v3, hv3_mem, hv3_rel⟩ :=
      forall2_mem_right (combatRun_frame ops e.base_acc e.decay_m
        (findTargets ops (stepSpottedState ops e dt_ms))
        (stepSpottedState ops e dt_ms) e.rng) hv4_mem
    rw [(moraleRel_fields v4 v hv4_rel).2.2.2.2.1, hv3_rel.2.2.2.2.2.2.2]
    exact hspot3 v3 hv3_mem

/-! ### C4 — routing is terminal -/

/-- C4: once a unit's routed flag is true, any sequence of apply_orders/step
calls leaves it routed with unchanged position, ammo and intent fields; no
OrderAccepted is emitted for it and no ShotFired has it as shooter; after
any step no unit's spotted_by contains it; and targeting never selects a
routed unit as shooter in any state with dict-unique ids. -/
theorem routed_is_terminal (ops : MathOps) (e : Engine)
    (script : List (List Order × ℤ)) (uid : String) (u : SimUnit)
    (hn : (e.state.units.map SimUnit.id).Nodup)
    (hu : findU e.state.units uid = some u) (hr : u.routed = true) :
    (∃ u', findU (runScript ops e script).2.state.units uid = some u' ∧
      u'.routed = true ∧ u'.pos = u.pos ∧ u'.ammo = u.ammo ∧
      u'.intent_target_pos = u.intent_target_pos ∧
      u'.target_id = u.target_id) ∧
    (∀ evs ∈ (runScript ops e script).1, ∀ ev ∈ evs,
      ev.data.orderUnitOf ≠ some uid ∧ ev.data.shooterOf ≠ some uid) ∧
    (script ≠ [] →
      ∀ v ∈ (runScript ops e script).2.state.units, uid ∉ v.spotted_by) ∧
    (∀ (st : State) (w : SimUnit), (st.units.map SimUnit.id).Nodup →
      findU st.units uid = some w → w.routed = true →
      ∀ pr ∈ findTargets ops st, pr.1 ≠ uid) := by
  induction script generalizing e u with
  | nil =>
    refine ⟨⟨u, hu, hr, rfl, rfl, rfl, rfl⟩, ?_, ?_, ?_⟩
    · intro evs hevs
      simp [runScript] at hevs
    · intro hne
      exact absurd rfl hne
    · intro st w hn' hw hrw
      exact routed_not_shooter ops st uid w hn' hw hrw
  | cons head rest ih =>
    obtain ⟨os, dt⟩ := head
    have hu' : findU (e.apply_orders os).state.units uid = some u := hu
    have hn' : ((e.apply_orders os).state.units.map SimUnit.id).Nodup := hn
    obtain ⟨u1, hfind1, hr1, hpos1, hammo1, hint1, htid1, hevts1, hspot1⟩ :=
      step_routed_track ops (e.apply_orders os) dt uid u hn' hu' hr
    have hn1 : ((((e.apply_orders os).step ops dt).2).state.units.map
        SimUnit.id).Nodup := by
      rw [step_ids]
      exact hn'
    obtain ⟨⟨u2, hfind2, hr2, hpos2, hammo2, hint2, htid2⟩, hevts2, hspot2, _⟩ :=
      ih ((e.apply_orders os).step ops dt).2 u1 hn1 hfind1 hr1
    have hrun : runScript ops e ((os, dt) :: rest) =
        ((((e.apply_orders os).step ops dt).1) ::
          (runScript ops ((e.apply_orders os).step ops dt).2 rest).1,
         (runScript ops ((e.apply_orders os).step ops dt).2 rest).2) := rfl
    refine ⟨⟨u2, ?_, hr2, ?_, ?_, ?_, ?_⟩, ?_, ?_, ?_⟩
    · rw [hrun]
      exact hfind2
    · exact hpos2.trans hpos1
    · exact hammo2.trans hammo1
    · exact hint2.trans hint1
    · exact htid2.trans htid1
    · intro evs hevs
      rw [hrun] at hevs
      simp only [List.mem_cons] at hevs
      rcases hevs with rfl | hevs
      · exact hevts1
      · exact hevts2 evs hevs
    · intro _ v hv
      rw [hrun] at hv
      by_cases hrest : rest = []
      · subst hrest
        exact hspot1 v hv
      · exact hspot2 hrest v hv
    · intro st w hn2 hw hrw
      exact routed_not_shooter ops st uid w hn2 hw hrw

/-- Witness for C4: a routed unit "C" in the three-unit sample state over
one 500 ms step keeps its flag, position, ammo and intents. -/
theorem routed_is_terminal_witness :
    ∃ u', findU (runScript ops0 (Engine.init 5 st1)
        [([], 500)]).2.state.units "C" = some u' ∧
      u'.routed = true ∧ u'.pos = uC.pos ∧ u'.ammo = uC.ammo ∧
      u'.intent_target_pos = uC.intent_target_pos ∧
      u'.target_id = uC.target_id :=
  (routed_is_terminal ops0 (Engine.init 5 st1) [([], 500)] "C" uC
    (by decide) rfl rfl).1

/-! ### C5 — ammo monotonicity -/

/-- C5: across one step a unit's ammo never increases and never drops below
0 (from a non-negative start); it decreases by exactly the number of
ShotFired events with that unit as shooter (regardless of the Bernoulli hit
outcome); and targeting only ever selects a shooter with positive ammo. -/
theorem ammo_monotone (ops : MathOps) (e : Engine) (dt_ms : ℤ)
    (uid : String) (u : SimUnit)
    (hn : (e.state.units.map SimUnit.id).Nodup)
    (hu : findU e.state.units uid = some u) (ha : 0 ≤ u.ammo) :
    (∃ u', findU (Engine.step ops e dt_ms).2.state.units uid = some u' ∧
      u'.ammo ≤ u.ammo ∧ 0 ≤ u'.ammo ∧
      u'.ammo = u.ammo -
        (countShotsBy uid (Engine.step ops e dt_ms).1 : ℤ)) ∧
    (∀ (st : State) , ∀ pr ∈ findTargets ops st,
      ∃ s ∈ st.units, s.id = pr.1 ∧ 0 < s.ammo) := by
  have hsel : ∀ (st : State), ∀ pr ∈ findTargets ops st,
      ∃ s ∈ st.units, s.id = pr.1 ∧ 0 < s.ammo := by
    intro st pr hpr
    obtain ⟨su, hsu_mem, hsu_id, _, tu, _, _, _, _, hcf⟩ :=
      findTargets_spec ops st pr hpr
    exact ⟨su, hsu_mem, hsu_id, canFireAt_ammo_pos ops st.ts_ms su tu hcf⟩
  refine ⟨?_, hsel⟩
  -- Phases 1–3 preserve ammo of the tracked unit.
  have hu0 : findU (stepOrderPart e).1.units uid = some u →
      True := fun _ => trivial
  obtain ⟨u1, h1find, h1frame⟩ :=
    forall2_findU ordersFrame_id
      (applyOrdersNow_frame e.pending_orders e.state).1 hu
  obtain ⟨u2, h2find, h2frame⟩ :=
    forall2_findU moveFrame_id
      (movePhase_frame ops dt_ms (stepOrderPart e).1) h1find
  obtain ⟨u3, h3find, h3frame⟩ :=
    forall2_findU spotFrame_id
      (spotPhase_frame ops (movePhase ops dt_ms (stepOrderPart e).1).1)
      h2find
  have h3ammo : u3.ammo = u.ammo := by
    rw [h3frame.2.2.2.2.2.1, h2frame.2.2.2.2.1, h1frame.2.2.2.2.2.1]
  have h3find' : findU (stepSpottedState ops e dt_ms).units uid = some u3 :=
    h3find
  -- Identifier bookkeeping.
  have ids1 : (stepOrderPart e).1.units.map SimUnit.id =
      e.state.units.map SimUnit.id :=
    forall2_ids ordersFrame_id (applyOrdersNow_frame e.pending_orders e.state).1
  have ids2 : (movePhase ops dt_ms (stepOrderPart e).1).1.units.map SimUnit.id
      = (stepOrderPart e).1.units.map SimUnit.id :=
    forall2_ids moveFrame_id (movePhase_frame ops dt_ms (stepOrderPart e).1)
  have ids3 : (stepSpottedState ops e dt_ms).units.map SimUnit.id =
      (movePhase ops dt_ms (stepOrderPart e).1).1.units.map SimUnit.id :=
    forall2_ids spotFrame_id
      (spotPhase_frame ops (movePhase ops dt_ms (stepOrderPart e).1).1)
  have hn3 : ((stepSpottedState ops e dt_ms).units.map SimUnit.id).Nodup := by
    rw [ids3, ids2, ids1]
    exact hn
  -- Combat: ammo drops by the shot count.
  obtain ⟨u4, h4find, h4eq⟩ :=
    combatRun_track ops e.base_acc e.decay_m
      (findTargets ops (stepSpottedState ops e dt_ms))
      (stepSpottedState ops e dt_ms) e.rng uid u3 h3find'
  -- Morale preserves ammo.
  obtain ⟨u5, h5find, h5rel⟩ :=
    forall2_findU moraleRel_id
      (moraleRun_forall2 ops (stepCombatPart ops e dt_ms).1.ts_ms
        (stepCombatPart ops e dt_ms).1.units
        (stepCombatPart ops e dt_ms).2.1) h4find
  have h5ammo : u5.ammo = u4.ammo := (moraleRel_fields u4 u5 h5rel).2.2.1
  -- The step's ShotFired count equals the combat phase's.
  have hcount : countShotsBy uid (Engine.step ops e dt_ms).1 =
      countShotsBy uid (combatRun ops e.base_acc e.decay_m
        (stepSpottedState ops e dt_ms) e.rng
        (findTargets ops (stepSpottedState ops e dt_ms))).2.2 := by
    rw [step_events_decomp]
    unfold countShotsBy
    rw [List.countP_append, List.countP_append]
    have hzero1 : ((stepOrderPart e).2.countP
        (fun ev => ev.data.shooterOf == some uid)) = 0 := by
      rw [List.countP_eq_zero]
      intro ev hev
      rw [applyOrdersNow_payload e.pending_orders e.state ev hev]
      simp
    have hzero3 : ((stepMoralePart ops e dt_ms).2.2.countP
        (fun ev => ev.data.shooterOf == some uid)) = 0 := by
      rw [List.countP_eq_zero]
      intro ev hev
      rw [(moraleRun_payload ops (stepCombatPart ops e dt_ms).1.ts_ms
        (stepCombatPart ops e dt_ms).1.units
        (stepCombatPart ops e dt_ms).2.1 ev hev).2]
      simp
    rw [hzero1, hzero3]
    simp [stepCombatPart]
  -- Shot count is at most one with dict-unique ids.
  have hbound : countShotsBy uid (combatRun ops e.base_acc e.decay_m
      (stepSpottedState ops e dt_ms) e.rng
      (findTargets ops (stepSpottedState ops e dt_ms))).2.2 ≤ 1 := by
    have hb := combatRun_shot_bound ops e.base_acc e.decay_m
      (findTargets ops (stepSpottedState ops e dt_ms))
      (stepSpottedState ops e dt_ms) e.rng uid
    have hkeys : (((findTargets ops (stepSpottedState ops e dt_ms)).map
        Prod.fst)).Nodup :=
      (findTargets_keys_sublist ops (stepSpottedState ops e dt_ms)).nodup hn3
    have := List.nodup_iff_count_le_one.mp hkeys uid
    omega
  -- If a shot was fired, the shooter had positive ammo at targeting time.
  have hfired_pos : 0 < countShotsBy uid (combatRun ops e.base_acc e.decay_m
      (stepSpottedState ops e dt_ms) e.rng
      (findTargets ops (stepSpottedState ops e dt_ms))).2.2 →
      0 < u3.ammo := by
    intro hpos
    have hb := combatRun_shot_bound ops e.base_acc e.decay_m
      (findTargets ops (stepSpottedState ops e dt_ms))
      (stepSpottedState ops e dt_ms) e.rng uid
    have hmem : uid ∈ (findTargets ops (stepSpottedState ops e dt_ms)).map
        Prod.fst := by
      rw [← List.count_pos_iff]
      omega
    rw [List.mem_map] at hmem
    obtain ⟨pr, hpr, hpr_eq⟩ := hmem
    obtain ⟨s, hs_mem, hs_id, hs_pos⟩ :=
      hsel (stepSpottedState ops e dt_ms) pr hpr
    have : s = u3 := mem_eq_of_findU_nodup hn3 h3find' hs_mem
      (hs_id.trans hpr_eq)
    rw [← this]
    exact hs_pos
  -- Assemble.
  have hfinal_units : (Engine.step ops e dt_ms).2.state.units =
      (moraleRun ops (stepCombatPart ops e dt_ms).1.ts_ms
        (stepCombatPart ops e dt_ms).1.units
        (stepCombatPart ops e dt_ms).2.1).1 := by
    rw [step_state_decomp]
    rfl
  refine ⟨u5, ?_, ?_, ?_, ?_⟩
  · rw [hfinal_units]
    exact h5find
  · rw [h5ammo, h4eq, h3ammo]
    omega
  · rw [h5ammo, h4eq, h3ammo]
    by_cases hz : countShotsBy uid (combatRun ops e.base_acc e.decay_m
        (stepSpottedState ops e dt_ms) e.rng
        (findTargets ops (stepSpottedState ops e dt_ms))).2.2 = 0
    · rw [hz]
      omega
    · have h1 : 0 < u3.ammo := hfired_pos (by omega)
      rw [h3ammo] at h1
      omega
  · rw [h5ammo, h4eq, h3ammo, hcount]

/-- Witness for C5: the dead-but-armed unit "A" in the two-unit sample
state fires exactly once in one step, dropping its ammo from 10 to 9. -/
theorem ammo_monotone_witness :
    ∃ u', findU (Engine.step ops0 (Engine.init 7 st0)
        500).2.state.units "A" = some u' ∧
      u'.ammo ≤ uA.ammo ∧ 0 ≤ u'.ammo ∧
      u'.ammo = uA.ammo -
        (countShotsBy "A" (Engine.step ops0 (Engine.init 7 st0) 500).1 : ℤ) :=
  (ammo_monotone ops0 (Engine.init 7 st0) 500 "A" uA (by decide) rfl
    (by decide)).1

/-! ### C10 — destroyed units keep acting; only target selection needs
hp > 0 -/

/-- C10: a unit with hp ≤ 0 whose routed flag is false is not special-cased:
movement ignores hp entirely; spotting still uses it as a detector; target
selection only requires the TARGET to have hp > 0; and concretely the dead
unit "A" (hp = 0, not routed) is selected as shooter and emits ShotFired and
Damage events in a step. -/
theorem destroyed_units_still_act :
    (∀ (ops : MathOps) (dt_ms : ℤ) (u : SimUnit) (h : ℚ), u.hp ≤ 0 →
      moveUnit ops dt_ms { u with hp := h } =
        { moveUnit ops dt_ms u with hp := h }) ∧
    (∀ (ops : MathOps) (st : State) (d t : SimUnit), d.hp ≤ 0 →
      d ∈ st.units → d.routed = false → d.side ≠ t.side →
      canDetect ops d t = true →
      d.id ∈ spotListFor ops st.units t ∧
      (spotPhase ops st).1.units = st.units.map
        (fun v => { v with spotted_by := (spotListFor ops st.units v) })) ∧
    (∀ (ops : MathOps) (st : State), ∀ pr ∈ findTargets ops st,
      ∃ tu ∈ st.units, tu.id = pr.2 ∧ 0 < tu.hp) ∧
    ((Engine.step ops0 (Engine.init 7 st0) 500).1 =
      [{ kind := "ShotFired", ts_ms := 100000,
         data := .shotFired "A" "B" 0 (7/10) .small_arms },
       { kind := "Damage", ts_ms := 100000,
         data := .damage "B" 5 45 "A" },
       { kind := "Routed", ts_ms := 100000, data := .routedUnit "A" }] ∧
      uA.hp ≤ 0 ∧ uA.routed = false) := by
  refine ⟨?_, ?_, ?_, ?_, by norm_num [uA], rfl⟩
  · intro ops dt_ms u h _
    unfold moveUnit
    cases u with
    | mk id side utype pos hp ammo tid intent routed lft spotted =>
      dsimp only []
      cases intent with
      | none => simp
      | some tgt =>
        by_cases hroute : routed = true
        · simp [hroute]
        · simp only [hroute, reduceCtorEq, or_false, false_or, if_false,
            Option.some.injEq]
          split <;> rfl
  · intro ops st d t _ hmem hroute hside hdet
    exact ⟨spotList_detector_mem ops st.units t d hmem hroute hside hdet,
      rfl⟩
  · intro ops st pr hpr
    obtain ⟨_, _, _, _, tu, htu_mem, htu_id, _, htu_hp, _⟩ :=
      findTargets_spec ops st pr hpr
    exact ⟨tu, htu_mem, htu_id, htu_hp⟩
  · norm_num [Engine.step, Engine.init, applyOrdersNow, movePhase, moveUnit,
      spotPhase, spotListFor, canDetect, distance_2d, findTargets,
      betterTarget, canFireAt, combatRun, combatOne, calculate_damage,
      moraleRun, moraleUnit, moralePhase, DRNG.bernoulli, findU, setU,
      stepOrderPart, ops0, st0, uA, uB, RECON, SimUnit.get_type,
      List.filter_cons, List.filter_nil, List.filterMap_cons,
      List.filterMap_nil, List.foldl_cons, List.foldl_nil, List.find?_cons,
      List.find?_nil, List.map_cons, List.map_nil]
    repeat'
      first
        | rfl
        | (simp only [List.filter_cons, List.filter_nil,
            List.filterMap_cons, List.filterMap_nil, List.foldl_cons,
            List.foldl_nil, List.find?_cons, List.find?_nil, List.map_cons,
            List.map_nil, betterTarget, canFireAt, canDetect, distance_2d,
            calculate_damage, combatRun, combatOne, moraleRun, moraleUnit,
            DRNG.bernoulli, findU, setU, ops0, SimUnit.get_type,
            String.reduceEq, reduceCtorEq, reduceIte]
           norm_num [List.filter_cons, List.filter_nil, List.filterMap_cons,
            List.filterMap_nil, List.foldl_cons, List.foldl_nil,
            List.find?_cons, List.find?_nil, List.map_cons, List.map_nil,
            betterTarget, canFireAt, canDetect, distance_2d,
            calculate_damage, combatRun, combatOne, moraleRun, moraleUnit,
            DRNG.bernoulli, findU, setU, ops0, SimUnit.get_type])

/-- Witness for C10 at concrete inputs: movement of the dead recon ignores
its hp, and the dead unit "A" is listed as detector of "B". -/
theorem destroyed_units_still_act_witness :
    moveUnit ops0 500 { uA with hp := (-3 : ℚ) } =
      { moveUnit ops0 500 uA with hp := -3 } ∧
    uA.id ∈ spotListFor ops0 st0.units uB :=
  ⟨destroyed_units_still_act.1 ops0 500 uA (-3) (by norm_num [uA]),
   (destroyed_units_still_act.2.1 ops0 st0 uA uB (by norm_num [uA])
     (by simp [st0]) rfl (by decide)
     (by norm_num [canDetect, distance_2d, ops0, uA, uB, RECON,
       SimUnit.get_type])).1⟩

/-! ### C9 — target_id is write-only for targeting and combat

eraseTarget blanks the one field an attack order stores; two states that
differ only in target_id fields have equal images under eraseState. -/

/-- Forget a unit's stored attack target. -/
def eraseTarget (u : SimUnit) : SimUnit := { u with target_id := none }

/-- Forget every unit's stored attack target. -/
def eraseState (st : State) : State :=
  { st with units := st.units.map eraseTarget }

theorem eraseTarget_idem (u : SimUnit) :
    eraseTarget (eraseTarget u) = eraseTarget u := rfl

theorem eraseState_idem (st : State) :
    eraseState (eraseState st) = eraseState st := by
  unfold eraseState
  simp [List.map_map]
  intro a _
  rfl

theorem eraseTarget_id (u : SimUnit) : (eraseTarget u).id = u.id := rfl

/-- Looking up in the erased unit list finds the erased unit. -/
theorem findU_erase (l : List SimUnit) (x : String) :
    findU (l.map eraseTarget) x = (findU l x).map eraseTarget :=
  findU_map_of_id eraseTarget (fun _ => rfl) l x

/-- setU on the erased list, for an update that doesn't touch target_id,
is the erasure of setU on the original list. -/
theorem setU_erase (l : List SimUnit) (x : String) (f : SimUnit → SimUnit)
    (hf : ∀ a, eraseTarget (f a) = f (eraseTarget a)) :
    setU (l.map eraseTarget) x f = (setU l x f).map eraseTarget := by
  unfold setU
  rw [List.map_map, List.map_map]
  apply List.map_congr_left
  intro a _
  simp only [Function.comp_apply]
  rw [eraseTarget_id a]
  by_cases h : a.id = x
  · rw [if_pos h, if_pos h]
    exact (hf a).symm
  · rw [if_neg h, if_neg h]

/-- Movement never reads target_id. -/
theorem moveUnit_erase (ops : MathOps) (dt_ms : ℤ) (u : SimUnit) :
    moveUnit ops dt_ms (eraseTarget u) = eraseTarget (moveUnit ops dt_ms u) := by
  unfold moveUnit
  cases u with
  | mk id side utype pos hp ammo tid intent routed lft spotted =>
    dsimp only [eraseTarget]
    cases intent with
    | none => simp
    | some tgt =>
      by_cases hroute : routed = true
      · simp [hroute]
      · simp only [hroute, reduceCtorEq, or_false, false_or, if_false,
          Option.some.injEq]
        split <;> rfl

/-- The whole movement phase never reads target_id. -/
theorem movePhase_erase (ops : MathOps) (dt_ms : ℤ) (st : State) :
    (movePhase ops dt_ms (eraseState st)).1 =
      eraseState (movePhase ops dt_ms st).1 := by
  unfold movePhase eraseState
  dsimp only []
  congr 1
  rw [List.map_map, List.map_map]
  apply List.map_congr_left
  intro a _
  simp only [Function.comp_apply]
  exact moveUnit_erase ops dt_ms a

/-- Detection never reads target_id. -/
theorem canDetect_erase (ops : MathOps) (d t : SimUnit) :
    canDetect ops (eraseTarget d) (eraseTarget t) = canDetect ops d t := rfl

/-- The spotted_by recomputation never reads target_id. -/
theorem spotListFor_erase (ops : MathOps) (l : List SimUnit) (t : SimUnit) :
    spotListFor ops (l.map eraseTarget) (eraseTarget t) = spotListFor ops l t := by
  unfold spotListFor
  rw [List.filter_map, List.map_map]
  have hid : (SimUnit.id ∘ eraseTarget) = SimUnit.id := funext (fun _ => rfl)
  rw [hid]
  exact congrArg (List.map SimUnit.id) (List.filter_congr (fun d _ => rfl))

/-- The whole spotting phase never reads target_id. -/
theorem spotPhase_erase (ops : MathOps) (st : State) :
    (spotPhase ops (eraseState st)).1 = eraseState (spotPhase ops st).1 := by
  unfold spotPhase eraseState
  dsimp only []
  congr 1
  rw [List.map_map, List.map_map]
  apply List.map_congr_left
  intro a _
  simp only [Function.comp_apply]
  rw [spotListFor_erase ops st.units a]
  rfl

/-- The best-target accumulator never reads target_id. -/
theorem betterTarget_erase (ops : MathOps) (ts : ℤ) (u : SimUnit)
    (acc : Option (String × ℚ)) (t : SimUnit) :
    betterTarget ops ts (eraseTarget u) acc (eraseTarget t) =
      betterTarget ops ts u acc t := rfl

/-- Target selection never reads target_id. -/
theorem findTargets_erase (ops : MathOps) (st : State) :
    findTargets ops (eraseState st) = findTargets ops st := by
  unfold findTargets eraseState
  dsimp only []
  rw [List.filterMap_map]
  apply List.filterMap_congr
  intro u _
  simp only [Function.comp_apply]
  have hfold : (st.units.map eraseTarget).foldl
      (betterTarget ops st.ts_ms (eraseTarget u)) none =
      st.units.foldl (betterTarget ops st.ts_ms u) none := by
    rw [List.foldl_map]
    congr 1
  rw [hfold]
  dsimp only [eraseTarget]

/-- Damage calculation never reads target_id. -/
theorem calculate_damage_erase (s t : SimUnit) (b : ℚ) :
    calculate_damage (eraseTarget s) (eraseTarget t) b = calculate_damage s t b :=
  rfl

/-- One combat resolution never reads target_id: run from the erased state it
produces the erased resulting state, the same generator and the same events. -/
theorem combatOne_erase (ops : MathOps) (ba dm : ℚ) (st : State) (rng : DRNG)
    (pr : String × String) :
    combatOne ops ba dm (eraseState st) rng pr =
      (eraseState (combatOne ops ba dm st rng pr).1,
       (combatOne ops ba dm st rng pr).2.1,
       (combatOne ops ba dm st rng pr).2.2) := by
  unfold combatOne
  dsimp only [eraseState]
  rw [findU_erase, findU_erase]
  cases hf1 : findU st.units pr.1 with
  | none => rfl
  | some s =>
    cases hf2 : findU st.units pr.2 with
    | none => rfl
    | some t =>
      simp only [Option.map_some', calculate_damage_erase]
      dsimp only [eraseTarget, SimUnit.get_type]
      by_cases hg : s.routed = true ∨ t.hp ≤ 0
      · rw [if_pos hg, if_pos hg]
      · rw [if_neg hg, if_neg hg]
        rw [setU_erase st.units s.id
          (fun v => { v with ammo := v.ammo - 1,
                             last_fire_time := (st.ts_ms : ℚ) })
          (fun a => rfl)]
        rw [setU_erase (setU st.units s.id
            (fun v => { v with ammo := v.ammo - 1,
                               last_fire_time := (st.ts_ms : ℚ) }))
          t.id
          (fun v => { v with hp := v.hp - calculate_damage s t s.utype.damage })
          (fun a => rfl)]
        split_ifs <;> rfl

/-- Whole-phase version of combatOne_erase, threading state and generator. -/
theorem combatRun_erase (ops : MathOps) (ba dm : ℚ)
    (prs : List (String × String)) :
    ∀ (st : State) (rng : DRNG),
    combatRun ops ba dm (eraseState st) rng prs =
      (eraseState (combatRun ops ba dm st rng prs).1,
       (combatRun ops ba dm st rng prs).2.1,
       (combatRun ops ba dm st rng prs).2.2) := by
  induction prs with
  | nil => intro st rng; rfl
  | cons pr rest ih =>
    intro st rng
    simp only [combatRun]
    rw [combatOne_erase]
    dsimp only []
    rw [ih]

/-- The morale check for one unit never reads target_id. -/
theorem moraleUnit_erase (ops : MathOps) (ts : ℤ) (u : SimUnit) (rng : DRNG) :
    moraleUnit ops ts (eraseTarget u) rng =
      (eraseTarget (moraleUnit ops ts u rng).1,
       (moraleUnit ops ts u rng).2.1, (moraleUnit ops ts u rng).2.2) := by
  unfold moraleUnit
  dsimp only [eraseTarget, SimUnit.get_type]
  split_ifs <;> rfl

/-- The morale sweep never reads target_id. -/
theorem moraleRun_erase (ops : MathOps) (ts : ℤ) (us : List SimUnit) :
    ∀ rng : DRNG,
    moraleRun ops ts (us.map eraseTarget) rng =
      ((moraleRun ops ts us rng).1.map eraseTarget,
       (moraleRun ops ts us rng).2.1, (moraleRun ops ts us rng).2.2) := by
  induction us with
  | nil => intro rng; rfl
  | cons u rest ih =>
    intro rng
    simp only [List.map_cons, moraleRun]
    rw [moraleUnit_erase]
    dsimp only []
    rw [ih]

/-- The morale phase never reads target_id. -/
theorem moralePhase_erase (ops : MathOps) (st : State) (rng : DRNG) :
    moralePhase ops (eraseState st) rng =
      (eraseState (moralePhase ops st rng).1,
       (moralePhase ops st rng).2.1, (moralePhase ops st rng).2.2) := by
  unfold moralePhase
  dsimp only [eraseState]
  rw [moraleRun_erase]

/-- Updating one unit through a target_id-preserving function keeps erased
states of erase-equal states equal. -/
theorem eraseState_setU_congr (s1 s2 : State) (x : String)
    (f : SimUnit → SimUnit) (h : eraseState s1 = eraseState s2)
    (hf : ∀ a, eraseTarget (f a) = f (eraseTarget a)) :
    eraseState { s1 with units := setU s1.units x f } =
      eraseState { s2 with units := setU s2.units x f } := by
  have hts0 := congrArg State.ts_ms h
  have hb0 := congrArg State.battle_id h
  have hu0 := congrArg State.units h
  have hts : s1.ts_ms = s2.ts_ms := hts0
  have hb : s1.battle_id = s2.battle_id := hb0
  have hunits : s1.units.map eraseTarget = s2.units.map eraseTarget := hu0
  unfold eraseState
  dsimp only []
  rw [hts, hb, ← setU_erase s1.units x f hf, ← setU_erase s2.units x f hf,
    hunits]

/-- Storing an attack target changes nothing after erasure. -/
theorem eraseState_setU_attack (st : State) (x t : String) :
    eraseState { st with units :=
        (setU st.units x (fun v => { v with target_id := some t })) } =
      eraseState st := by
  unfold eraseState setU
  dsimp only []
  congr 1
  rw [List.map_map]
  apply List.map_congr_left
  intro a _
  simp only [Function.comp_apply]
  by_cases h : a.id = x
  · rw [if_pos h]
    rfl
  · rw [if_neg h]

/-- One order application: the emitted event and the erased result state
depend only on the erased input state (target_id is only written, and what is
echoed in OrderAccepted comes from the order itself). -/
theorem applyOrderOne_erase_congr (s1 s2 : State) (o : Order)
    (h : eraseState s1 = eraseState s2) :
    (applyOrderOne s1 o).2 = (applyOrderOne s2 o).2 ∧
      eraseState (applyOrderOne s1 o).1 = eraseState (applyOrderOne s2 o).1 := by
  obtain ⟨kind, uid, tpos, tuid, cts⟩ := o
  have hts0 := congrArg State.ts_ms h
  have hu0 := congrArg State.units h
  have hts : s1.ts_ms = s2.ts_ms := hts0
  have hunits : s1.units.map eraseTarget = s2.units.map eraseTarget := hu0
  have hfind : (findU s1.units uid).map eraseTarget =
      (findU s2.units uid).map eraseTarget := by
    rw [← findU_erase, ← findU_erase, hunits]
  unfold applyOrderOne
  dsimp only []
  cases hf1 : findU s1.units uid with
  | none =>
    cases hf2 : findU s2.units uid with
    | none => exact ⟨rfl, h⟩
    | some u2 =>
      rw [hf1, hf2] at hfind
      simp at hfind
  | some u1 =>
    cases hf2 : findU s2.units uid with
    | none =>
      rw [hf1, hf2] at hfind
      simp at hfind
    | some u2 =>
      rw [hf1, hf2] at hfind
      simp only [Option.map_some', Option.some.injEq] at hfind
      have hid0 := congrArg SimUnit.id hfind
      have hr0 := congrArg SimUnit.routed hfind
      have hid : u1.id = u2.id := hid0
      have hr : u1.routed = u2.routed := hr0
      dsimp only []
      by_cases hrt : u1.routed = true
      · rw [if_pos hrt, if_pos (hr ▸ hrt)]
        exact ⟨rfl, h⟩
      · rw [if_neg hrt, if_neg (hr ▸ hrt)]
        cases kind with
        | move =>
          cases tpos with
          | none => exact ⟨rfl, h⟩
          | some tp =>
            dsimp only []
            refine ⟨?_, ?_⟩
            · rw [hts, hid]
            · exact eraseState_setU_congr s1 s2 uid
                (fun v => { v with intent_target_pos := some tp }) h
                (fun a => rfl)
        | attack =>
          cases tuid with
          | none => exact ⟨rfl, h⟩
          | some t =>
            dsimp only []
            by_cases ht : t = ""
            · rw [if_pos ht, if_pos ht]
              exact ⟨rfl, h⟩
            · rw [if_neg ht, if_neg ht]
              dsimp only []
              refine ⟨?_, ?_⟩
              · rw [hts, hid]
              · rw [eraseState_setU_attack, eraseState_setU_attack]
                exact h
        | defend =>
          dsimp only []
          refine ⟨?_, ?_⟩
          · rw [hts, hid]
          · exact eraseState_setU_congr s1 s2 uid
              (fun v => { v with intent_target_pos := none,
                                 target_id := none }) h (fun a => rfl)

/-- Whole orders phase: the emitted events and the erased result state depend
only on the erased input state. -/
theorem applyOrdersNow_erase_congr (os : List Order) :
    ∀ s1 s2 : State, eraseState s1 = eraseState s2 →
    (applyOrdersNow s1 os).2 = (applyOrdersNow s2 os).2 ∧
      eraseState (applyOrdersNow s1 os).1 =
        eraseState (applyOrdersNow s2 os).1 := by
  induction os with
  | nil =>
    intro s1 s2 h
    exact ⟨rfl, h⟩
  | cons o rest ih =>
    intro s1 s2 h
    have h1 := applyOrderOne_erase_congr s1 s2 o h
    have h2 := ih (applyOrderOne s1 o).1 (applyOrderOne s2 o).1 h1.2
    simp only [applyOrdersNow]
    exact ⟨by rw [h1.1, h2.1], h2.2⟩

theorem movePhase_erase_congr (ops : MathOps) (dt_ms : ℤ) (a b : State)
    (h : eraseState a = eraseState b) :
    eraseState (movePhase ops dt_ms a).1 =
      eraseState (movePhase ops dt_ms b).1 := by
  rw [← movePhase_erase, ← movePhase_erase, h]

theorem spotPhase_erase_congr (ops : MathOps) (a b : State)
    (h : eraseState a = eraseState b) :
    eraseState (spotPhase ops a).1 = eraseState (spotPhase ops b).1 := by
  rw [← spotPhase_erase, ← spotPhase_erase, h]

theorem findTargets_erase_congr (ops : MathOps) (a b : State)
    (h : eraseState a = eraseState b) :
    findTargets ops a = findTargets ops b := by
  rw [← findTargets_erase ops a, ← findTargets_erase ops b, h]

theorem combatRun_erase_congr (ops : MathOps) (ba dm : ℚ)
    (prs : List (String × String)) (a b : State) (rng : DRNG)
    (h : eraseState a = eraseState b) :
    (combatRun ops ba dm a rng prs).2.2 =
      (combatRun ops ba dm b rng prs).2.2 ∧
    (combatRun ops ba dm a rng prs).2.1 =
      (combatRun ops ba dm b rng prs).2.1 ∧
    eraseState (combatRun ops ba dm a rng prs).1 =
      eraseState (combatRun ops ba dm b rng prs).1 := by
  have ha := combatRun_erase ops ba dm prs a rng
  have hb := combatRun_erase ops ba dm prs b rng
  rw [h] at ha
  have hab := ha.symm.trans hb
  exact ⟨congrArg (fun x => x.2.2) hab, congrArg (fun x => x.2.1) hab,
    congrArg (fun x => x.1) hab⟩

theorem moralePhase_erase_congr (ops : MathOps) (a b : State) (rng : DRNG)
    (h : eraseState a = eraseState b) :
    (moralePhase ops a rng).2.2 = (moralePhase ops b rng).2.2 ∧
    (moralePhase ops a rng).2.1 = (moralePhase ops b rng).2.1 ∧
    eraseState (moralePhase ops a rng).1 =
      eraseState (moralePhase ops b rng).1 := by
  have ha := moralePhase_erase ops a rng
  have hb := moralePhase_erase ops b rng
  rw [h] at ha
  have hab := ha.symm.trans hb
  exact ⟨congrArg (fun x => x.2.2) hab, congrArg (fun x => x.2.1) hab,
    congrArg (fun x => x.1) hab⟩

theorem eraseState_advance (a b : State) (dt : ℤ)
    (h : eraseState a = eraseState b) :
    eraseState { a with ts_ms := a.ts_ms + dt } =
      eraseState { b with ts_ms := b.ts_ms + dt } := by
  have hts0 := congrArg State.ts_ms h
  have hb0 := congrArg State.battle_id h
  have hu0 := congrArg State.units h
  have hts : a.ts_ms = b.ts_ms := hts0
  have hbat : a.battle_id = b.battle_id := hb0
  have hu : a.units.map eraseTarget = b.units.map eraseTarget := hu0
  unfold eraseState
  dsimp only []
  rw [hts, hbat, hu]

/-- C9: the target-unit id stored by an attack order is write-only for
targeting and combat. Two engines whose states differ only in their units'
target_id fields (equal erased states) and that otherwise agree produce the
same step event list — in particular identical ShotFired, Damage, Destroyed
and Routed events — equal generators, and resulting states that again agree
on everything but target_id (same positions, hp, ammo, routed flags); and
target selection gives the same shooter-to-target pairs on any two states
with equal erased states. -/
theorem target_id_not_read (ops : MathOps) (e1 e2 : Engine) (dt_ms : ℤ)
    (hst : eraseState e1.state = eraseState e2.state)
    (hrng : e1.rng = e2.rng) (hpend : e1.pending_orders = e2.pending_orders)
    (hacc : e1.base_acc = e2.base_acc) (hdec : e1.decay_m = e2.decay_m) :
    (∀ s1 s2 : State, eraseState s1 = eraseState s2 →
      findTargets ops s1 = findTargets ops s2) ∧
    (Engine.step ops e1 dt_ms).1 = (Engine.step ops e2 dt_ms).1 ∧
    (Engine.step ops e1 dt_ms).2.rng = (Engine.step ops e2 dt_ms).2.rng ∧
    eraseState (Engine.step ops e1 dt_ms).2.state =
      eraseState (Engine.step ops e2 dt_ms).2.state := by
  refine ⟨fun s1 s2 hh => findTargets_erase_congr ops s1 s2 hh, ?_⟩
  simp only [Engine.step]
  rw [hpend, hrng, hacc, hdec]
  have h1 := applyOrdersNow_erase_congr e2.pending_orders e1.state e2.state hst
  have h2 := movePhase_erase_congr ops dt_ms
    (applyOrdersNow e1.state e2.pending_orders).1
    (applyOrdersNow e2.state e2.pending_orders).1 h1.2
  have h3 := spotPhase_erase_congr ops
    (movePhase ops dt_ms (applyOrdersNow e1.state e2.pending_orders).1).1
    (movePhase ops dt_ms (applyOrdersNow e2.state e2.pending_orders).1).1 h2
  have htg := findTargets_erase_congr ops
    (spotPhase ops (movePhase ops dt_ms
      (applyOrdersNow e1.state e2.pending_orders).1).1).1
    (spotPhase ops (movePhase ops dt_ms
      (applyOrdersNow e2.state e2.pending_orders).1).1).1 h3
  rw [htg]
  have h4 := combatRun_erase_congr ops e2.base_acc e2.decay_m
    (findTargets ops (spotPhase ops (movePhase ops dt_ms
      (applyOrdersNow e2.state e2.pending_orders).1).1).1)
    (spotPhase ops (movePhase ops dt_ms
      (applyOrdersNow e1.state e2.pending_orders).1).1).1
    (spotPhase ops (movePhase ops dt_ms
      (applyOrdersNow e2.state e2.pending_orders).1).1).1 e2.rng h3
  rw [h4.2.1]
  have h5 := moralePhase_erase_congr ops
    (combatRun ops e2.base_acc e2.decay_m (spotPhase ops (movePhase ops dt_ms
      (applyOrdersNow e1.state e2.pending_orders).1).1).1 e2.rng
      (findTargets ops (spotPhase ops (movePhase ops dt_ms
        (applyOrdersNow e2.state e2.pending_orders).1).1).1)).1
    (combatRun ops e2.base_acc e2.decay_m (spotPhase ops (movePhase ops dt_ms
      (applyOrdersNow e2.state e2.pending_orders).1).1).1 e2.rng
      (findTargets ops (spotPhase ops (movePhase ops dt_ms
        (applyOrdersNow e2.state e2.pending_orders).1).1).1)).1
    (combatRun ops e2.base_acc e2.decay_m (spotPhase ops (movePhase ops dt_ms
      (applyOrdersNow e2.state e2.pending_orders).1).1).1 e2.rng
      (findTargets ops (spotPhase ops (movePhase ops dt_ms
        (applyOrdersNow e2.state e2.pending_orders).1).1).1)).2.1
    h4.2.2
  have hm1 : (movePhase ops dt_ms
      (applyOrdersNow e1.state e2.pending_orders).1).2 = ([] : List Event) :=
    rfl
  have hm2 : (movePhase ops dt_ms
      (applyOrdersNow e2.state e2.pending_orders).1).2 = ([] : List Event) :=
    rfl
  have hs1 : (spotPhase ops (movePhase ops dt_ms
      (applyOrdersNow e1.state e2.pending_orders).1).1).2 =
      ([] : List Event) := rfl
  have hs2 : (spotPhase ops (movePhase ops dt_ms
      (applyOrdersNow e2.state e2.pending_orders).1).1).2 =
      ([] : List Event) := rfl
  refine ⟨?_, ?_, ?_⟩
  · rw [h1.1, hm1, hm2, hs1, hs2, h4.1, h5.1]
  · rw [h5.2.1]
  · exact eraseState_advance _ _ dt_ms h5.2.2

/-- Witness for C9: on the concrete two-unit battlefield, giving the dead
recon a stored target_id of its opponent changes neither the step events nor
anything in the resulting state besides that target_id. -/
theorem target_id_not_read_witness :
    (Engine.step ops0 (Engine.init 7 st0) 500).1 =
      (Engine.step ops0 (Engine.init 7 { st0 with units :=
        ([{ uA with target_id := some "B" }, uB]) }) 500).1 ∧
    eraseState (Engine.step ops0 (Engine.init 7 st0) 500).2.state =
      eraseState (Engine.step ops0 (Engine.init 7 { st0 with units :=
        ([{ uA with target_id := some "B" }, uB]) }) 500).2.state :=
  ⟨(target_id_not_read ops0 (Engine.init 7 st0)
      (Engine.init 7 { st0 with units :=
        ([{ uA with target_id := some "B" }, uB]) })
      500 rfl rfl rfl rfl rfl).2.1,
   (target_id_not_read ops0 (Engine.init 7 st0)
      (Engine.init 7 { st0 with units :=
        ([{ uA with target_id := some "B" }, uB]) })
      500 rfl rfl rfl rfl rfl).2.2.2⟩

end Strat
